import Mathlib

/-!
Shallow embedding of the gesture-recognition core of the `gesture` repository
(`libgestures`): geometry (`geom.rs`), snapshots and frames (`frame.rs`),
recognizers and combinators (`recognizer.rs`, `gestures/primitive.rs`,
`filters.rs`) and the manager (`manager.rs`).  Rust `f64` values are idealized
as real numbers; a Rust panic (failed `assert!` or out-of-bounds index) is
modelled by `Option.none` where a claim depends on it.
-/

noncomputable section

namespace Gesture

/-! ## Geometry (`geom.rs`) -/

/-- `Point = euclid::TypedVector2D<f64, Mm>`: a 2-d vector in millimeters. -/
abbrev Point := ℝ × ℝ

namespace PointOps

/-- Componentwise addition (`euclid` vector `+`). -/
def add (p q : Point) : Point := (p.1 + q.1, p.2 + q.2)

/-- Componentwise subtraction (`euclid` vector `-`). -/
def sub (p q : Point) : Point := (p.1 - q.1, p.2 - q.2)

/-- Scalar division `p / c` of a `euclid` vector. -/
def sdiv (p : Point) (c : ℝ) : Point := (p.1 / c, p.2 / c)

/-- Scalar multiplication `p * c` of a `euclid` vector. -/
def smul (p : Point) (c : ℝ) : Point := (p.1 * c, p.2 * c)

/-- `euclid` vector `length()`: Euclidean norm. -/
def length (p : Point) : ℝ := Real.sqrt (p.1 ^ 2 + p.2 ^ 2)

end PointOps

/-- Model of `f64::atan2(y, x)` (used only symbolically by the claims). -/
def atan2 (y x : ℝ) : ℝ :=
  if 0 < x then Real.arctan (y / x)
  else if x < 0 ∧ 0 ≤ y then Real.arctan (y / x) + Real.pi
  else if x < 0 ∧ y < 0 then Real.arctan (y / x) - Real.pi
  else if x = 0 ∧ 0 < y then Real.pi / 2
  else if x = 0 ∧ y < 0 then -(Real.pi / 2)
  else 0

/-- `Angle`: a normalized angle, stored in radians (`geom.rs`).  The struct
itself does not enforce the `[0, 2π)` invariant; the constructors do. -/
structure Angle where
  angle : ℝ
  deriving DecidableEq

namespace Angle

/-- `Angle::from_radians(r)`: stores `r - 2π * (r / (2π)).floor()`. -/
def from_radians (r : ℝ) : Angle :=
  ⟨r - 2 * Real.pi * (⌊r / (2 * Real.pi)⌋ : ℤ)⟩

/-- `Angle::from_degrees(d) = Angle::from_radians(d * π / 180)`. -/
def from_degrees (d : ℝ) : Angle :=
  from_radians (d * Real.pi / 180)

/-- `Angle::to_radians()`. -/
def to_radians (a : Angle) : ℝ := a.angle

end Angle

/-- `UAngle`: an unsized (unsigned) angle, stored in radians (`geom.rs`). -/
structure UAngle where
  angle : ℝ
  deriving DecidableEq

/-- `Angle::abs()`: `(2π - self.angle).min(self.angle)` as a `UAngle`. -/
def Angle.abs (a : Angle) : UAngle :=
  ⟨min (2 * Real.pi - a.angle) a.angle⟩

/-- `Angle::interpolate(other, lambda)`.  The source `assert!`s
`0 ≤ lambda ≤ 1`; the claims only invoke it with such `lambda`, so the
assertion is recorded as a hypothesis on the theorems instead of an
`Option`.  The source mutates the local copies `my_angle`/`other_angle`
("if necessary, adjust one of the angles so that they're within π of each
other"); the mutation is inlined into the two branches here. -/
def Angle.interpolate (self other : Angle) (lambda : ℝ) : Angle :=
  if |self.angle - other.angle| > Real.pi then
    if self.angle < other.angle then
      Angle.from_radians
        ((1 - lambda) * (self.angle + 2 * Real.pi) + lambda * other.angle)
    else
      Angle.from_radians
        ((1 - lambda) * self.angle + lambda * (other.angle + 2 * Real.pi))
  else
    Angle.from_radians ((1 - lambda) * self.angle + lambda * other.angle)

/-- `impl Add for Angle`: re-normalizes. -/
def Angle.add (a b : Angle) : Angle := Angle.from_radians (a.angle + b.angle)

/-- `impl Sub for Angle`: re-normalizes. -/
def Angle.sub (a b : Angle) : Angle := Angle.from_radians (a.angle - b.angle)

namespace UAngle

/-- `UAngle::from_radians(r)`: the source `assert!`s `r >= 0` (panic modelled
by `none`), then stores `Angle::from_radians(r).to_radians()`. -/
def from_radians (r : ℝ) : Option UAngle :=
  if 0 ≤ r then some ⟨(Angle.from_radians r).to_radians⟩ else none

/-- `UAngle::to_radians()`. -/
def to_radians (u : UAngle) : ℝ := u.angle

/-- `UAngle::from_degrees(d)`: `assert!`s `d >= 0` (panic modelled by `none`),
then delegates to `from_radians(d * π / 180)`. -/
def from_degrees (d : ℝ) : Option UAngle :=
  if 0 ≤ d then from_radians (d * Real.pi / 180) else none

/-- `impl Add for UAngle`: adds the raw radian values, with NO
re-normalization. -/
def add (a b : UAngle) : UAngle := ⟨a.angle + b.angle⟩

end UAngle

/-- `Direction` (`geom.rs`). -/
inductive Direction where
  | Up
  | Down
  | Left
  | Right
  deriving DecidableEq

namespace Direction

/-- `Direction::from_angle(angle, threshold)`.  The source `assert!`s
`threshold ≤ π/4`; the claims only use thresholds satisfying it, so the
assertion is carried as a hypothesis on the theorems.  The source locals
`right = 0`, `up = π/2`, `left = π`, `down = 1.5π` and the
`RangeInclusive::contains` tests are inlined. -/
def from_angle (angle : Angle) (threshold : UAngle) : Option Direction :=
  if 0 ≤ angle.angle ∧ angle.angle ≤ 0 + threshold.angle then some .Right
  else if Real.pi / 2 - threshold.angle ≤ angle.angle ∧
      angle.angle ≤ Real.pi / 2 + threshold.angle then some .Up
  else if Real.pi - threshold.angle ≤ angle.angle ∧
      angle.angle ≤ Real.pi + threshold.angle then some .Left
  else if 1.5 * Real.pi - threshold.angle ≤ angle.angle ∧
      angle.angle ≤ 1.5 * Real.pi + threshold.angle then some .Down
  else if 2 * Real.pi - threshold.angle ≤ angle.angle ∧
      angle.angle ≤ 2 * Real.pi then some .Right
  else none

/-- `Direction::to_angle()`. -/
def to_angle (d : Direction) : Angle :=
  match d with
  | .Right => Angle.from_degrees 0
  | .Up => Angle.from_degrees 90
  | .Left => Angle.from_degrees 180
  | .Down => Angle.from_degrees 270

end Direction

/-! ### Basic facts about angle normalization -/

theorem two_pi_pos : (0 : ℝ) < 2 * Real.pi := by positivity

/-- `from_radians` lands in `[0, 2π)`. -/
theorem from_radians_mem (r : ℝ) :
    0 ≤ (Angle.from_radians r).angle ∧ (Angle.from_radians r).angle < 2 * Real.pi := by
  unfold Angle.from_radians
  have h := two_pi_pos
  constructor
  · have hf : (⌊r / (2 * Real.pi)⌋ : ℝ) ≤ r / (2 * Real.pi) := Int.floor_le _
    have := (mul_le_mul_right h).mpr hf
    simp only
    rw [div_mul_eq_mul_div, mul_div_assoc, div_self (ne_of_gt h)] at this
    nlinarith [this]
  · have hf : r / (2 * Real.pi) < (⌊r / (2 * Real.pi)⌋ : ℝ) + 1 := Int.lt_floor_add_one _
    have := (mul_lt_mul_right h).mpr hf
    simp only
    rw [div_mul_eq_mul_div, mul_div_assoc, div_self (ne_of_gt h)] at this
    nlinarith [this]

/-- `from_radians` fixes values already in `[0, 2π)`. -/
theorem from_radians_eq_self {r : ℝ} (h0 : 0 ≤ r) (h1 : r < 2 * Real.pi) :
    Angle.from_radians r = ⟨r⟩ := by
  unfold Angle.from_radians
  have h := two_pi_pos
  have : ⌊r / (2 * Real.pi)⌋ = 0 := by
    rw [Int.floor_eq_zero_iff]
    constructor
    · exact div_nonneg h0 (le_of_lt h)
    · rw [div_lt_one h]; linarith
  rw [this]
  simp

/-- Shifting by `2π` does not change `from_radians`. -/
theorem from_radians_add_two_pi (r : ℝ) :
    Angle.from_radians (r + 2 * Real.pi) = Angle.from_radians r := by
  unfold Angle.from_radians
  have h := two_pi_pos
  have : (r + 2 * Real.pi) / (2 * Real.pi) = r / (2 * Real.pi) + 1 := by
    field_simp
  rw [this, Int.floor_add_one]
  congr 1
  push_cast
  ring

/-- `Angle.from_degrees` for `d ∈ [0, 360)` stores exactly `d·π/180`. -/
theorem from_degrees_eval {d : ℝ} (h0 : 0 ≤ d) (h1 : d < 360) :
    Angle.from_degrees d = ⟨d * Real.pi / 180⟩ := by
  unfold Angle.from_degrees
  apply from_radians_eq_self
  · positivity
  · have := Real.pi_pos; nlinarith

/-- `UAngle.from_radians` for `r ∈ [0, 2π)` stores exactly `r`. -/
theorem uangle_from_radians_eval {r : ℝ} (h0 : 0 ≤ r) (h1 : r < 2 * Real.pi) :
    UAngle.from_radians r = some ⟨r⟩ := by
  unfold UAngle.from_radians
  rw [if_pos h0, from_radians_eq_self h0 h1]
  rfl

/-- `UAngle.from_degrees` for `d ∈ [0, 360)` stores exactly `d·π/180`. -/
theorem uangle_from_degrees_eval {d : ℝ} (h0 : 0 ≤ d) (h1 : d < 360) :
    UAngle.from_degrees d = some ⟨d * Real.pi / 180⟩ := by
  unfold UAngle.from_degrees
  rw [if_pos h0]
  apply uangle_from_radians_eval
  · positivity
  · have := Real.pi_pos; nlinarith

/-- Any successful `UAngle.from_radians` lands in `[0, 2π)`. -/
theorem uangle_from_radians_range {r : ℝ} {u : UAngle}
    (h : UAngle.from_radians r = some u) :
    0 ≤ u.to_radians ∧ u.to_radians < 2 * Real.pi := by
  unfold UAngle.from_radians at h
  by_cases hr : 0 ≤ r
  · rw [if_pos hr] at h
    have hu := Option.some_inj.mp h
    subst hu
    exact from_radians_mem r
  · rw [if_neg hr] at h
    cases h

/-- The `UAngle` values reachable through the public operations named by
claim C6: `UAngle::from_radians`, `UAngle::from_degrees`, `Angle::abs`
(applied to a normalized `Angle` — the invariant every `Angle` constructor
establishes) and `UAngle` addition. -/
inductive UAngle.Reachable : UAngle → Prop where
  | of_radians (r : ℝ) (u : UAngle) :
      UAngle.from_radians r = some u → UAngle.Reachable u
  | of_degrees (d : ℝ) (u : UAngle) :
      UAngle.from_degrees d = some u → UAngle.Reachable u
  | of_abs (a : Angle) : 0 ≤ a.angle → a.angle < 2 * Real.pi →
      UAngle.Reachable a.abs
  | of_add (u v : UAngle) : UAngle.Reachable u → UAngle.Reachable v →
      UAngle.Reachable (u.add v)

/-- C6, counterexample: `UAngle::from_radians(π) + UAngle::from_radians(π)` is
a reachable `UAngle` whose `to_radians()` equals `2π`, which is outside
`[0, 2π)`: `UAngle` addition does not re-normalize. -/
theorem C6_uangle_counterexample :
    UAngle.Reachable ⟨2 * Real.pi⟩ ∧
      ¬ (⟨2 * Real.pi⟩ : UAngle).to_radians < 2 * Real.pi := by
  constructor
  · have hmem : UAngle.from_radians Real.pi = some ⟨Real.pi⟩ :=
      uangle_from_radians_eval Real.pi_pos.le (by nlinarith [Real.pi_pos])
    have hr : UAngle.Reachable ⟨Real.pi⟩ := .of_radians _ _ hmem
    have h2 := UAngle.Reachable.of_add _ _ hr hr
    have he : (⟨Real.pi⟩ : UAngle).add ⟨Real.pi⟩ = ⟨2 * Real.pi⟩ := by
      unfold UAngle.add
      rw [two_mul]
    rwa [he] at h2
  · simp [UAngle.to_radians]

/-- C6 (amended): every reachable `UAngle` is nonnegative;
`from_radians`/`from_degrees` results and `Angle::abs` results moreover lie
in `[0, 2π)` (`abs` even in `[0, π]`); `from_radians` and `from_degrees`
reject (panic on) any negative input.  `UAngle` addition preserves only
nonnegativity, since it does not re-normalize. -/
theorem C6_uangle_range :
    (∀ u : UAngle, u.Reachable → 0 ≤ u.to_radians) ∧
    (∀ (r : ℝ) (u : UAngle), UAngle.from_radians r = some u →
      0 ≤ u.to_radians ∧ u.to_radians < 2 * Real.pi) ∧
    (∀ (d : ℝ) (u : UAngle), UAngle.from_degrees d = some u →
      0 ≤ u.to_radians ∧ u.to_radians < 2 * Real.pi) ∧
    (∀ a : Angle, 0 ≤ a.angle → a.angle < 2 * Real.pi →
      0 ≤ a.abs.to_radians ∧ a.abs.to_radians ≤ Real.pi) ∧
    (∀ r : ℝ, r < 0 → UAngle.from_radians r = none) ∧
    (∀ d : ℝ, d < 0 → UAngle.from_degrees d = none) := by
  have hdeg : ∀ (d : ℝ) (u : UAngle), UAngle.from_degrees d = some u →
      0 ≤ u.to_radians ∧ u.to_radians < 2 * Real.pi := by
    intro d u h
    unfold UAngle.from_degrees at h
    by_cases hd : 0 ≤ d
    · rw [if_pos hd] at h
      exact uangle_from_radians_range h
    · rw [if_neg hd] at h
      cases h
  have habs : ∀ a : Angle, 0 ≤ a.angle → a.angle < 2 * Real.pi →
      0 ≤ a.abs.to_radians ∧ a.abs.to_radians ≤ Real.pi := by
    intro a h0 h1
    unfold Angle.abs UAngle.to_radians
    constructor
    · exact le_min (by linarith) h0
    · rcases le_total a.angle Real.pi with hle | hle
      · exact le_trans (min_le_right _ _) hle
      · exact le_trans (min_le_left _ _) (by linarith)
  refine ⟨?_, fun r u h => uangle_from_radians_range h, hdeg, habs, ?_, ?_⟩
  · intro u hu
    induction hu with
    | of_radians r u h => exact (uangle_from_radians_range h).1
    | of_degrees d u h => exact (hdeg d u h).1
    | of_abs a h0 h1 => exact (habs a h0 h1).1
    | of_add u v _ _ ihu ihv => exact add_nonneg ihu ihv
  · intro r hr
    unfold UAngle.from_radians
    rw [if_neg (not_le.mpr hr)]
  · intro d hd
    unfold UAngle.from_degrees
    rw [if_neg (not_le.mpr hd)]

/-- Witness for `C6_uangle_range`: `UAngle::from_radians(0)` produces `⟨0⟩`,
which lies in `[0, 2π)`, and `UAngle::from_radians(-1)` panics. -/
theorem C6_uangle_range_witness :
    (0 ≤ (⟨0⟩ : UAngle).to_radians ∧
      (⟨0⟩ : UAngle).to_radians < 2 * Real.pi) ∧
    UAngle.from_radians (-1) = none :=
  ⟨C6_uangle_range.2.1 0 ⟨0⟩ (uangle_from_radians_eval le_rfl two_pi_pos),
   C6_uangle_range.2.2.2.2.1 (-1) (by norm_num)⟩

/-- C7: `interpolate(a, b, 0) = a` and `interpolate(a, b, 1) = b` for
normalized angles, and interpolation follows the shorter arc on the two
concrete instances from the spec: `interpolate(7π/4, π/4, 0.5) = 0` and
`interpolate(3π/4, 5π/4, 0.5) = π`. -/
theorem C7_interpolate :
    (∀ a b : Angle, 0 ≤ a.angle → a.angle < 2 * Real.pi →
      a.interpolate b 0 = a) ∧
    (∀ a b : Angle, 0 ≤ b.angle → b.angle < 2 * Real.pi →
      a.interpolate b 1 = b) ∧
    (Angle.from_radians (7 * Real.pi / 4)).interpolate
        (Angle.from_radians (Real.pi / 4)) (1 / 2) = Angle.from_radians 0 ∧
    (Angle.from_radians (3 * Real.pi / 4)).interpolate
        (Angle.from_radians (5 * Real.pi / 4)) (1 / 2)
      = Angle.from_radians Real.pi := by
  have hp := Real.pi_pos
  refine ⟨?_, ?_, ?_, ?_⟩
  · intro a b h0 h1
    unfold Angle.interpolate
    have e1 : (1 - (0 : ℝ)) * (a.angle + 2 * Real.pi) + 0 * b.angle
        = a.angle + 2 * Real.pi := by ring
    have e2 : (1 - (0 : ℝ)) * a.angle + 0 * (b.angle + 2 * Real.pi)
        = a.angle := by ring
    have e3 : (1 - (0 : ℝ)) * a.angle + 0 * b.angle = a.angle := by ring
    split_ifs with hc hlt
    · rw [e1, from_radians_add_two_pi, from_radians_eq_self h0 h1]
    · rw [e2, from_radians_eq_self h0 h1]
    · rw [e3, from_radians_eq_self h0 h1]
  · intro a b h0 h1
    unfold Angle.interpolate
    have e1 : (1 - (1 : ℝ)) * (a.angle + 2 * Real.pi) + 1 * b.angle
        = b.angle := by ring
    have e2 : (1 - (1 : ℝ)) * a.angle + 1 * (b.angle + 2 * Real.pi)
        = b.angle + 2 * Real.pi := by ring
    have e3 : (1 - (1 : ℝ)) * a.angle + 1 * b.angle = b.angle := by ring
    split_ifs with hc hlt
    · rw [e1, from_radians_eq_self h0 h1]
    · rw [e2, from_radians_add_two_pi, from_radians_eq_self h0 h1]
    · rw [e3, from_radians_eq_self h0 h1]
  · rw [from_radians_eq_self (by positivity) (by nlinarith),
        from_radians_eq_self (by positivity) (by nlinarith)]
    unfold Angle.interpolate
    dsimp only
    have hd : |7 * Real.pi / 4 - Real.pi / 4| = 3 * Real.pi / 2 := by
      rw [abs_of_nonneg (by nlinarith)]
      ring
    rw [if_pos (by rw [hd]; nlinarith), if_neg (by nlinarith)]
    have he : (1 - 1 / 2 : ℝ) * (7 * Real.pi / 4)
        + 1 / 2 * (Real.pi / 4 + 2 * Real.pi) = 0 + 2 * Real.pi := by ring
    rw [he, from_radians_add_two_pi]
  · rw [from_radians_eq_self (by positivity) (by nlinarith),
        from_radians_eq_self (by positivity) (by nlinarith)]
    unfold Angle.interpolate
    dsimp only
    have hd : |3 * Real.pi / 4 - 5 * Real.pi / 4| = Real.pi / 2 := by
      rw [abs_of_nonpos (by nlinarith)]
      ring
    rw [if_neg (by rw [hd]; nlinarith)]
    have he : (1 - 1 / 2 : ℝ) * (3 * Real.pi / 4)
        + 1 / 2 * (5 * Real.pi / 4) = Real.pi := by ring
    rw [he]

/-- Witness for `C7_interpolate`: `interpolate(0, 0, 0) = 0`. -/
theorem C7_interpolate_witness :
    Angle.interpolate ⟨0⟩ ⟨0⟩ 0 = ⟨0⟩ :=
  C7_interpolate.1 ⟨0⟩ ⟨0⟩ le_rfl two_pi_pos

/-- C8: `from_angle(d.to_angle(), t) = Some(d)` for every direction `d` and
every threshold `0 < t ≤ π/4`; with a 10° threshold, `from_angle` returns
`Right` at 0°, 9° and 351°, and `None` at 11° and 349°. -/
theorem C8_direction_round_trip :
    (∀ (d : Direction) (t : ℝ), 0 < t → t ≤ Real.pi / 4 →
      Direction.from_angle d.to_angle ⟨t⟩ = some d) ∧
    (∀ t10 : UAngle, UAngle.from_degrees 10 = some t10 →
      Direction.from_angle (Angle.from_degrees 0) t10 = some .Right ∧
      Direction.from_angle (Angle.from_degrees 9) t10 = some .Right ∧
      Direction.from_angle (Angle.from_degrees 351) t10 = some .Right ∧
      Direction.from_angle (Angle.from_degrees 11) t10 = none ∧
      Direction.from_angle (Angle.from_degrees 349) t10 = none) := by
  have hp := Real.pi_pos
  constructor
  · intro d t ht0 ht4
    cases d with
    | Right =>
        rw [Direction.to_angle, from_degrees_eval (by norm_num) (by norm_num)]
        unfold Direction.from_angle
        dsimp only
        rw [if_pos ⟨by linarith, by linarith⟩]
    | Up =>
        rw [Direction.to_angle, from_degrees_eval (by norm_num) (by norm_num)]
        unfold Direction.from_angle
        dsimp only
        rw [if_neg (by rintro ⟨h₁, h₂⟩; linarith),
          if_pos ⟨by linarith, by linarith⟩]
    | Left =>
        rw [Direction.to_angle, from_degrees_eval (by norm_num) (by norm_num)]
        unfold Direction.from_angle
        dsimp only
        rw [if_neg (by rintro ⟨h₁, h₂⟩; linarith),
          if_neg (by rintro ⟨h₁, h₂⟩; linarith),
          if_pos ⟨by linarith, by linarith⟩]
    | Down =>
        rw [Direction.to_angle, from_degrees_eval (by norm_num) (by norm_num)]
        unfold Direction.from_angle
        dsimp only
        rw [if_neg (by rintro ⟨h₁, h₂⟩; linarith),
          if_neg (by rintro ⟨h₁, h₂⟩; linarith),
          if_neg (by rintro ⟨h₁, h₂⟩; linarith),
          if_pos ⟨by linarith, by linarith⟩]
  · intro t10 h
    rw [uangle_from_degrees_eval (by norm_num) (by norm_num)] at h
    have ht := Option.some_inj.mp h
    subst ht
    refine ⟨?_, ?_, ?_, ?_, ?_⟩
    · rw [from_degrees_eval (by norm_num) (by norm_num)]
      unfold Direction.from_angle
      dsimp only
      rw [if_pos ⟨by linarith, by linarith⟩]
    · rw [from_degrees_eval (by norm_num) (by norm_num)]
      unfold Direction.from_angle
      dsimp only
      rw [if_pos ⟨by linarith, by linarith⟩]
    · rw [from_degrees_eval (by norm_num) (by norm_num)]
      unfold Direction.from_angle
      dsimp only
      rw [if_neg (by rintro ⟨h₁, h₂⟩; linarith),
        if_neg (by rintro ⟨h₁, h₂⟩; linarith),
        if_neg (by rintro ⟨h₁, h₂⟩; linarith),
        if_neg (by rintro ⟨h₁, h₂⟩; linarith),
        if_pos ⟨by linarith, by linarith⟩]
    · rw [from_degrees_eval (by norm_num) (by norm_num)]
      unfold Direction.from_angle
      dsimp only
      rw [if_neg (by rintro ⟨h₁, h₂⟩; linarith),
        if_neg (by rintro ⟨h₁, h₂⟩; linarith),
        if_neg (by rintro ⟨h₁, h₂⟩; linarith),
        if_neg (by rintro ⟨h₁, h₂⟩; linarith),
        if_neg (by rintro ⟨h₁, h₂⟩; linarith)]
    · rw [from_degrees_eval (by norm_num) (by norm_num)]
      unfold Direction.from_angle
      dsimp only
      rw [if_neg (by rintro ⟨h₁, h₂⟩; linarith),
        if_neg (by rintro ⟨h₁, h₂⟩; linarith),
        if_neg (by rintro ⟨h₁, h₂⟩; linarith),
        if_neg (by rintro ⟨h₁, h₂⟩; linarith),
        if_neg (by rintro ⟨h₁, h₂⟩; linarith)]

/-- Witness for `C8_direction_round_trip`: the round trip at `Right` with
threshold `π/4`, and the concrete 10° threshold facts. -/
theorem C8_direction_round_trip_witness :
    Direction.from_angle Direction.Right.to_angle ⟨Real.pi / 4⟩
        = some Direction.Right ∧
    Direction.from_angle (Angle.from_degrees 11) ⟨10 * Real.pi / 180⟩
        = none :=
  ⟨C8_direction_round_trip.1 .Right (Real.pi / 4) (by positivity) le_rfl,
   (C8_direction_round_trip.2 ⟨10 * Real.pi / 180⟩
      (uangle_from_degrees_eval (by norm_num) (by norm_num))).2.2.2.1⟩

/-! ## Snapshots and frames (`frame.rs`) -/

/-- `MAX_SLOTS = 10`. -/
abbrev MAX_SLOTS : ℕ := 10

/-- `Snapshot`: the cached down count (`u8`, modelled as `ℕ`), a presence bit
per slot and a position per slot. -/
structure Snapshot where
  num_down : ℕ
  down : Fin MAX_SLOTS → Bool
  pos : Fin MAX_SLOTS → Point

namespace Snapshot

/-- `Snapshot::new()`. -/
def new : Snapshot :=
  { num_down := 0, down := fun _ => false, pos := fun _ => (0, 0) }

/-- Index set of the `fingers()` iterator: the slots that are down. -/
def downSet (s : Snapshot) : Finset (Fin MAX_SLOTS) :=
  Finset.univ.filter (fun i => s.down i = true)

/-- Index set of the slots down in both snapshots (the `filter` used by
`mean_pos_filtered` and `mean_dist`). -/
def interSet (s o : Snapshot) : Finset (Fin MAX_SLOTS) :=
  Finset.univ.filter (fun i => s.down i = true ∧ o.down i = true)

/-- `Snapshot::mean_pos()`: sum of the down positions, divided by `num_down`;
zero when no finger is down. -/
def mean_pos (s : Snapshot) : Point :=
  if s.num_down = 0 then (0, 0)
  else PointOps.sdiv (s.downSet.sum s.pos) (s.num_down : ℝ)

/-- `Snapshot::mean_pos_filtered(other)`: mean of `self`'s positions over the
slots down in both; zero when the intersection is empty. -/
def mean_pos_filtered (s o : Snapshot) : Point :=
  if (s.interSet o).card = 0 then (0, 0)
  else PointOps.sdiv ((s.interSet o).sum s.pos) ((s.interSet o).card : ℝ)

/-- `Snapshot::mean_dist(other)`: the summed distances over the slots down in
both, divided by `self.num_down` (NOT by the size of the intersection); zero
when `num_down == 0`. -/
def mean_dist (s o : Snapshot) : ℝ :=
  if s.num_down = 0 then 0
  else ((s.interSet o).sum fun i => PointOps.length (PointOps.sub (s.pos i) (o.pos i)))
    / (s.num_down : ℝ)

/-- `Snapshot::set_down(i, pos)`. -/
def set_down (s : Snapshot) (i : Fin MAX_SLOTS) (p : Point) : Snapshot :=
  if s.down i = true then { s with pos := Function.update s.pos i p }
  else
    { num_down := s.num_down + 1, down := Function.update s.down i true,
      pos := Function.update s.pos i p }

/-- `Snapshot::set_up(i)`. -/
def set_up (s : Snapshot) (i : Fin MAX_SLOTS) : Snapshot :=
  if s.down i = true then
    { s with num_down := s.num_down - 1, down := Function.update s.down i false }
  else s

/-- One iteration of the `merge` loop body at slot `i`. -/
def mergeStep (s o : Snapshot) (i : Fin MAX_SLOTS) : Snapshot :=
  if s.down i = false ∧ o.down i = true then s.set_down i (o.pos i)
  else if s.down i = true ∧ o.down i = false then s.set_up i
  else s

/-- `Snapshot::merge(other)`: the `for i in 0..MAX_SLOTS` loop. -/
def merge (s o : Snapshot) : Snapshot :=
  (List.finRange MAX_SLOTS).foldl (fun acc i => mergeStep acc o i) s

/-- `Snapshot::interpolate_to(other, lambda)`: each loop iteration touches
only slot `i`, so the loop is modelled pointwise. -/
def interpolate_to (s o : Snapshot) (lambda : ℝ) : Snapshot :=
  { s with
    pos := fun i =>
      if o.down i = true then
        PointOps.add (PointOps.smul (s.pos i) (1 - lambda))
          (PointOps.smul (o.pos i) lambda)
      else s.pos i }

/-- `impl SubAssign<Point> for Snapshot`: shift every stored position. -/
def sub_all (s : Snapshot) (p : Point) : Snapshot :=
  { s with pos := fun i => PointOps.sub (s.pos i) p }

end Snapshot

/-- The driver events consumed by `Frame::update` (`input::event::touch`).
The driver's `slot()` is an `Option<u32>` read with `unwrap_or(0)`; events
here carry the resulting index directly. -/
inductive TouchEvent where
  | Down (slot : ℕ) (x y : ℝ)
  | Up (slot : ℕ)
  | Motion (slot : ℕ) (x y : ℝ)
  | Cancel
  | FrameEv

/-- `Frame` (`frame.rs`). -/
structure Frame where
  touch_down : Bool
  touch_up : Bool
  cur : Snapshot
  last : Snapshot

namespace Frame

/-- `Frame::new()`. -/
def new : Frame :=
  { touch_down := false, touch_up := false, cur := Snapshot.new,
    last := Snapshot.new }

/-- `Frame::update(ev)`.  `none` models a Rust panic: the `Up` and `Motion`
arms index `cur.down[slot]` / `cur.pos[slot]` without a bounds check, so a
slot `≥ MAX_SLOTS` panics there; the `Down` arm checks the bound and drops
the event. -/
def update (f : Frame) (ev : TouchEvent) : Option Frame :=
  match ev with
  | .Down slot x y =>
      if h : slot < MAX_SLOTS then
        -- "down event, but the finger was already down?": logged, dropped
        if f.cur.down ⟨slot, h⟩ = true then some f
        else some
          { f with
            touch_down := true,
            cur :=
              { num_down := f.cur.num_down + 1,
                down := Function.update f.cur.down ⟨slot, h⟩ true,
                pos := Function.update f.cur.pos ⟨slot, h⟩ (x, y) } }
      else some f  -- "not enough slots": logged, dropped
  | .Up slot =>
      if h : slot < MAX_SLOTS then
        -- "up event, but the finger was already up?": logged, dropped
        if f.cur.down ⟨slot, h⟩ = false then some f
        else some
          { f with
            touch_up := true,
            cur :=
              { num_down := f.cur.num_down - 1,
                down := Function.update f.cur.down ⟨slot, h⟩ false,
                pos := f.cur.pos } }
      else none  -- `self.cur.down[slot]` indexes out of bounds
  | .Motion slot x y =>
      if h : slot < MAX_SLOTS then
        some { f with cur := { f.cur with
          pos := Function.update f.cur.pos ⟨slot, h⟩ (x, y) } }
      else none  -- `self.cur.pos[slot]` indexes out of bounds
  | .Cancel => some f   -- "what should I do with a cancel event?"
  | .FrameEv => some f

/-- `Frame::advance()`. -/
def advance (f : Frame) : Frame :=
  { f with last := f.cur, touch_up := false, touch_down := false }

end Frame

/-! ### Facts about `merge` (claim C5) -/

theorem mergeStep_down_self (s o : Snapshot) (i : Fin MAX_SLOTS) :
    (Snapshot.mergeStep s o i).down i = o.down i := by
  unfold Snapshot.mergeStep Snapshot.set_down Snapshot.set_up
  cases hs : s.down i <;> cases ho : o.down i <;>
    simp [hs, ho, Function.update_same]

theorem mergeStep_down_ne (s o : Snapshot) {i j : Fin MAX_SLOTS} (h : j ≠ i) :
    (Snapshot.mergeStep s o i).down j = s.down j := by
  unfold Snapshot.mergeStep Snapshot.set_down Snapshot.set_up
  cases hs : s.down i <;> cases ho : o.down i <;>
    simp [hs, ho, Function.update_noteq h]

theorem mergeStep_pos_self (s o : Snapshot) (i : Fin MAX_SLOTS) :
    (Snapshot.mergeStep s o i).pos i
      = if s.down i = false ∧ o.down i = true then o.pos i else s.pos i := by
  unfold Snapshot.mergeStep Snapshot.set_down Snapshot.set_up
  cases hs : s.down i <;> cases ho : o.down i <;>
    simp [hs, ho, Function.update_same]

theorem mergeStep_pos_ne (s o : Snapshot) {i j : Fin MAX_SLOTS} (h : j ≠ i) :
    (Snapshot.mergeStep s o i).pos j = s.pos j := by
  unfold Snapshot.mergeStep Snapshot.set_down Snapshot.set_up
  cases hs : s.down i <;> cases ho : o.down i <;>
    simp [hs, ho, Function.update_noteq h]

/-- Invariant of the `merge` loop: after processing the slots in `l`, the
presence bits on `l` match `other`'s, and a position changed only for slots
in `l` that were newly brought down. -/
theorem merge_loop_spec (o : Snapshot) :
    ∀ (l : List (Fin MAX_SLOTS)) (s : Snapshot) (j : Fin MAX_SLOTS),
      ((l.foldl (fun acc i => Snapshot.mergeStep acc o i) s).down j
          = if j ∈ l then o.down j else s.down j) ∧
      ((l.foldl (fun acc i => Snapshot.mergeStep acc o i) s).pos j
          = if j ∈ l ∧ s.down j = false ∧ o.down j = true then o.pos j
            else s.pos j) := by
  intro l
  induction l with
  | nil => intro s j; simp
  | cons i l ih =>
      intro s j
      rw [List.foldl_cons]
      obtain ⟨ihd, ihp⟩ := ih (Snapshot.mergeStep s o i) j
      constructor
      · rw [ihd]
        by_cases hjl : j ∈ l
        · simp [hjl]
        · by_cases hji : j = i
          · subst hji
            simp [hjl, mergeStep_down_self]
          · rw [mergeStep_down_ne _ _ hji]
            simp [hjl, hji, List.mem_cons]
      · rw [ihp]
        by_cases hji : j = i
        · subst hji
          rw [mergeStep_pos_self, mergeStep_down_self]
          by_cases ho : o.down j = true <;> by_cases hs : s.down j = false <;>
            simp [ho, hs, List.mem_cons]
        · rw [mergeStep_pos_ne _ _ hji, mergeStep_down_ne _ _ hji]
          simp [List.mem_cons, hji]

/-- C5 (amended): after `s.merge(o)` the presence set matches `o`'s exactly;
a slot down in `o` but not in `s` takes `o`'s position, while a slot that was
already down keeps `s`'s position (common slots are NOT replaced from `o`). -/
theorem C5_merge_spec :
    ∀ (s o : Snapshot) (j : Fin MAX_SLOTS),
      ((s.merge o).down j = o.down j) ∧
      ((s.merge o).pos j
        = if s.down j = false ∧ o.down j = true then o.pos j else s.pos j) := by
  intro s o j
  obtain ⟨hd, hp⟩ := merge_loop_spec o (List.finRange MAX_SLOTS) s j
  unfold Snapshot.merge
  rw [hd, hp]
  simp [List.mem_finRange]

/-- Snapshot with only slot 0 down, at the origin. -/
def c5s : Snapshot :=
  ⟨1, fun i => decide (i.val = 0), fun _ => (0, 0)⟩

/-- Snapshot with only slot 0 down, at `(1, 1)`. -/
def c5o : Snapshot :=
  ⟨1, fun i => decide (i.val = 0), fun _ => (1, 1)⟩

/-- C5, counterexample: slot 0 is down in both `c5s` and `c5o`, and after
`c5s.merge(c5o)` its position is still `c5s`'s `(0,0)`, not `c5o`'s `(1,1)`:
`merge` does not replace the position of a slot that was already down. -/
theorem C5_merge_counterexample :
    (Snapshot.merge c5s c5o).pos 0 ≠ c5o.pos 0 := by
  obtain ⟨-, hp⟩ := merge_loop_spec c5o (List.finRange MAX_SLOTS) c5s 0
  unfold Snapshot.merge
  rw [hp, if_neg]
  · show ((0 : ℝ), (0 : ℝ)) ≠ ((1 : ℝ), (1 : ℝ))
    intro h
    have := congrArg Prod.fst h
    norm_num at this
  · rintro ⟨-, hfalse, -⟩
    exact absurd hfalse (by decide)

/-! ### Facts about `mean_dist` (claim C2) -/

/-- Modelled from the spec's words for comparison (refinement check): the
arithmetic mean of the distances over exactly the intersection of the
down-slot sets, zero when that intersection is empty. -/
def Snapshot.specMeanDist (s o : Snapshot) : ℝ :=
  if (s.interSet o).card = 0 then 0
  else ((s.interSet o).sum fun i =>
    PointOps.length (PointOps.sub (s.pos i) (o.pos i))) / ((s.interSet o).card : ℝ)

/-- Snapshot with slots 0 and 1 down, both at the origin. -/
def c2s : Snapshot :=
  ⟨2, fun i => decide (i.val < 2), fun _ => (0, 0)⟩

/-- Snapshot with only slot 0 down, at `(1, 0)`. -/
def c2o : Snapshot :=
  ⟨1, fun i => decide (i.val = 0), fun _ => (1, 0)⟩

/-- C2, counterexample: `c2s` has two fingers down and `c2o` one of them; the
intersection is `{0}` with distance 1, so the mean over the intersection is
1, but `mean_dist` divides the summed distance by `self.num_down = 2` and
returns `1/2`. -/
theorem C2_mean_dist_counterexample :
    Snapshot.specMeanDist c2s c2o = 1 ∧ Snapshot.mean_dist c2s c2o = 1 / 2 ∧
      Snapshot.mean_dist c2s c2o ≠ Snapshot.specMeanDist c2s c2o := by
  have hset : c2s.interSet c2o = {0} := by decide
  have hsum : ((c2s.interSet c2o).sum fun i =>
      PointOps.length (PointOps.sub (c2s.pos i) (c2o.pos i))) = 1 := by
    rw [hset, Finset.sum_singleton]
    show PointOps.length (PointOps.sub (0, 0) (1, 0)) = 1
    simp only [PointOps.sub, PointOps.length]
    norm_num
  have h1 : Snapshot.specMeanDist c2s c2o = 1 := by
    unfold Snapshot.specMeanDist
    rw [hsum, hset]
    norm_num
  have h2 : Snapshot.mean_dist c2s c2o = 1 / 2 := by
    unfold Snapshot.mean_dist
    rw [hsum, if_neg (by decide : ¬(c2s.num_down = 0))]
    norm_num [c2s]
  refine ⟨h1, h2, ?_⟩
  rw [h1, h2]
  norm_num

/-- C2 (amended): `mean_dist` sums the distances over the intersection of the
down-slot sets but divides by `self.num_down` (not by the intersection
size); it is zero when `num_down = 0` and when the intersection is empty,
and `mean_dist(s, s) = 0` for every `s`. -/
theorem C2_mean_dist_spec :
    (∀ s o : Snapshot, s.mean_dist o
      = if s.num_down = 0 then 0
        else ((s.interSet o).sum fun i =>
          PointOps.length (PointOps.sub (s.pos i) (o.pos i))) / (s.num_down : ℝ)) ∧
    (∀ s o : Snapshot, s.num_down = 0 → s.mean_dist o = 0) ∧
    (∀ s o : Snapshot, s.interSet o = ∅ → s.mean_dist o = 0) ∧
    (∀ s : Snapshot, s.mean_dist s = 0) := by
  refine ⟨fun s o => rfl, ?_, ?_, ?_⟩
  · intro s o h
    unfold Snapshot.mean_dist
    rw [if_pos h]
  · intro s o h
    unfold Snapshot.mean_dist
    rw [h, Finset.sum_empty]
    split_ifs <;> simp
  · intro s
    unfold Snapshot.mean_dist
    have hz : ((s.interSet s).sum fun i =>
        PointOps.length (PointOps.sub (s.pos i) (s.pos i))) = 0 := by
      apply Finset.sum_eq_zero
      intro i _
      simp [PointOps.sub, PointOps.length]
    rw [hz]
    split_ifs <;> simp

/-- Witness for `C2_mean_dist_spec`: the empty snapshot has `mean_dist 0` to
itself. -/
theorem C2_mean_dist_spec_witness :
    Snapshot.mean_dist Snapshot.new Snapshot.new = 0 :=
  C2_mean_dist_spec.2.1 Snapshot.new Snapshot.new rfl

/-! ### Frame anomalies (claim C3) -/

/-- A frame with one finger down, in slot 0. -/
def c3frame : Frame :=
  { touch_down := false, touch_up := false,
    cur := { num_down := 1, down := fun i => decide (i.val = 0),
             pos := fun _ => (0, 0) },
    last := Snapshot.new }

/-- C3: a down event for an already-down slot, an up event for an absent
(in-range) slot, and a down event with `slot ≥ MAX_SLOTS` are all dropped
with the frame unchanged — but an up or motion event with
`slot ≥ MAX_SLOTS` indexes `cur.down[slot]` / `cur.pos[slot]` out of bounds
and PANICS (`none`), contradicting the claim that such events are dropped. -/
theorem C3_update_anomalies :
    Frame.update c3frame (.Down 0 5 5) = some c3frame ∧
    Frame.update c3frame (.Up 1) = some c3frame ∧
    Frame.update c3frame (.Down 10 5 5) = some c3frame ∧
    Frame.update c3frame (.Up 10) = none ∧
    Frame.update c3frame (.Motion 10 5 5) = none :=
  ⟨rfl, rfl, rfl, rfl, rfl⟩

/-! ## Recognizers (`recognizer.rs`) -/

/-- `RecResult<T>`. -/
inductive RecResult (T : Type) where
  | Continuing
  | Succeeded (t : T)
  | Failed
  deriving DecidableEq

/-- `RecResult::and_then`. -/
def RecResult.andThen {T U : Type} (r : RecResult T) (f : T → RecResult U) :
    RecResult U :=
  match r with
  | .Continuing => .Continuing
  | .Failed => .Failed
  | .Succeeded t => f t

/-- `RecResult::map`. -/
def RecResult.map {T U : Type} (r : RecResult T) (f : T → U) : RecResult U :=
  r.andThen (fun x => .Succeeded (f x))

/-- `FilterResult`. -/
inductive FilterResult where
  | Passed
  | Failed
  deriving DecidableEq

/-- A `Recognizer` impl: the struct's mutable state is `σ`; `init` transforms
the previous state (combinators reset only part of their state) and `update`
returns the mutated state together with the `RecResult`. -/
structure Rec (σ In Out : Type) where
  init : In → Frame → σ → σ
  update : Frame → σ → σ × RecResult Out

/-- A `Filter` impl, same shape without typed I/O. -/
structure FilterB (σ : Type) where
  init : Frame → σ → σ
  update : Frame → σ → σ × FilterResult

/-! ### Primitive recognizers (`gestures/primitive.rs`) -/

/-- `NFingers`: the struct holds only the target count `n` (`u8`). -/
structure NFingers where
  n : ℕ

/-- `NFingers::new(n)`. -/
def NFingers.new (n : ℕ) : NFingers := ⟨n⟩

/-- `impl Recognizer for NFingers`. -/
def NFingersRec : Rec NFingers Unit Unit where
  init := fun _ _ s => s
  update := fun frame s =>
    (s,
      if frame.touch_up = true ∨ s.n < frame.cur.num_down then .Failed
      else if frame.cur.num_down = s.n then .Succeeded ()
      else .Continuing)

/-- `impl Recognizer for FingersUp` (the struct has no fields). -/
def FingersUpRec : Rec Unit Unit Unit where
  init := fun _ _ s => s
  update := fun frame s =>
    (s,
      if frame.touch_down = true then .Failed
      else if frame.cur.num_down = 0 then .Succeeded ()
      else .Continuing)

/-- `InitialAngle`. -/
structure InitialAngle where
  threshold : ℝ
  init_pos : Point

/-- `InitialAngle::new()`: threshold 5.0 mm. -/
def InitialAngle.new : InitialAngle := ⟨5, (0, 0)⟩

/-- `InitialAngle::with_threshold_mm(mm)`. -/
def InitialAngle.with_threshold_mm (mm : ℝ) : InitialAngle := ⟨mm, (0, 0)⟩

/-- `impl Recognizer for InitialAngle`. -/
def InitialAngleRec : Rec InitialAngle Unit (Point × Angle) where
  init := fun _ frame s => { s with init_pos := frame.cur.mean_pos }
  update := fun frame s =>
    (s,
      if frame.touch_up = true ∨ frame.touch_down = true then .Failed
      else
        let diff := PointOps.sub frame.cur.mean_pos s.init_pos
        if s.threshold < PointOps.length diff then
          .Succeeded (s.init_pos, Angle.from_radians (atan2 (-diff.2) diff.1))
        else .Continuing)

/-- `StraightSwipeReason`. -/
inductive StraightSwipeReason where
  | ChangedAngle
  | LiftedFinger
  deriving DecidableEq

/-- `StraightSwipeOutcome`. -/
structure StraightSwipeOutcome where
  reason : StraightSwipeReason
  init_pos : Point
  final_pos : Point
  angle : Angle

/-- `StraightSwipe`. -/
structure StraightSwipe where
  init_pos : Point
  last_pos : Point
  min_length : ℝ
  step : ℝ
  adaptivity : ℝ
  angle : Angle
  angle_tolerance : ℝ

/-- `StraightSwipe::new()`. -/
def StraightSwipe.new : StraightSwipe :=
  { init_pos := (0, 0), last_pos := (0, 0), min_length := 10, step := 3,
    adaptivity := 0.01, angle := Angle.from_radians 0,
    angle_tolerance := 20 * Real.pi / 180 }

/-- `StraightSwipe::adaptivity(a)` builder. -/
def StraightSwipe.with_adaptivity (s : StraightSwipe) (a : ℝ) : StraightSwipe :=
  { s with adaptivity := a }

/-- `StraightSwipe::outcome(reason, frame)`. -/
def StraightSwipe.outcome (s : StraightSwipe) (reason : StraightSwipeReason)
    (frame : Frame) : StraightSwipeOutcome :=
  { reason := reason, init_pos := s.init_pos, final_pos := frame.cur.mean_pos,
    angle := s.angle }

/-- `impl Recognizer for StraightSwipe`. -/
def StraightSwipeRec : Rec StraightSwipe (Point × Angle) StraightSwipeOutcome where
  init := fun inp _ s =>
    { s with init_pos := inp.1, last_pos := inp.1, angle := inp.2 }
  update := fun frame s =>
    if frame.touch_down = true then (s, .Failed)
    else if frame.touch_up = true then
      let diff := PointOps.sub frame.cur.mean_pos s.init_pos
      if s.min_length < PointOps.length diff then
        (s, .Succeeded (s.outcome .LiftedFinger frame))
      else (s, .Failed)
    else
      let diff := PointOps.sub frame.cur.mean_pos s.last_pos
      if s.step ≤ PointOps.length diff then
        -- `self.last_pos = frame.cur.mean_pos()` happens before the
        -- tolerance test; the angle test reads the pre-update `self.angle`.
        let s1 := { s with last_pos := frame.cur.mean_pos }
        let a2 := Angle.from_radians (atan2 (-diff.2) diff.1)
        if s.angle_tolerance < (a2.sub s.angle).abs.to_radians then
          if s.min_length
              < PointOps.length (PointOps.sub frame.cur.mean_pos s.init_pos) then
            (s1, .Succeeded (s1.outcome .ChangedAngle frame))
          else (s1, .Failed)
        else
          let lambda := min (PointOps.length diff * s.adaptivity) 1
          ({ s1 with angle := s.angle.interpolate a2 lambda }, .Continuing)
      else (s, .Continuing)

/-! ### Filters (`filters.rs`) -/

/-- `NoMovement`. -/
structure NoMovement where
  threshold : ℝ
  init_pos : Snapshot

/-- `NoMovement::new()`: threshold 1.0 mm. -/
def NoMovement.new : NoMovement := ⟨1, Snapshot.new⟩

/-- `impl Filter for NoMovement`. -/
def NoMovementFil : FilterB NoMovement where
  init := fun frame s => { s with init_pos := frame.cur }
  update := fun frame s =>
    if s.threshold < frame.cur.mean_dist s.init_pos then (s, .Failed)
    else ({ s with init_pos := s.init_pos.merge frame.cur }, .Passed)

/-- `NoRelativeMovement`. -/
structure NoRelativeMovement where
  threshold : ℝ
  adaptivity : ℝ
  init_rel_pos : Snapshot

/-- `NoRelativeMovement::new()`: threshold 5.0 mm, adaptivity 0.02. -/
def NoRelativeMovement.new : NoRelativeMovement := ⟨5, 0.02, Snapshot.new⟩

/-- `impl Filter for NoRelativeMovement`. -/
def NoRelativeMovementFil : FilterB NoRelativeMovement where
  init := fun frame s =>
    { s with init_rel_pos := (frame.cur).sub_all frame.cur.mean_pos }
  update := fun frame s =>
    let s1 :=
      if frame.touch_down = true ∨ frame.touch_up = true then
        let mean_diff := PointOps.sub frame.cur.mean_pos frame.last.mean_pos
        let mean_diff_corrected :=
          PointOps.sub (frame.cur.mean_pos_filtered frame.last)
            (frame.last.mean_pos_filtered frame.cur)
        { s with init_rel_pos :=
            s.init_rel_pos.sub_all (PointOps.sub mean_diff mean_diff_corrected) }
      else s
    let rel_pos := (frame.cur).sub_all frame.cur.mean_pos
    let s2 :=
      if frame.touch_down = true ∨ frame.touch_up = true then
        { s1 with init_rel_pos := s1.init_rel_pos.merge rel_pos }
      else s1
    if s2.threshold < rel_pos.mean_dist s2.init_rel_pos then (s2, .Failed)
    else
      let dist :=
        PointOps.length (PointOps.sub frame.cur.mean_pos frame.last.mean_pos)
      let lambda := min (dist * s2.adaptivity) 1
      ({ s2 with init_rel_pos := s2.init_rel_pos.interpolate_to rel_pos lambda },
        .Passed)

/-! ### Combinators (`recognizer.rs`) -/

/-- `FlatMapOutcome` (`flat_map_outcome`): same state, mapped verdict. -/
def Rec.flat_map_outcome {σ In T Out : Type} (R : Rec σ In T)
    (f : T → RecResult Out) : Rec σ In Out where
  init := R.init
  update := fun frame s =>
    let p := R.update frame s
    (p.1, p.2.andThen f)

/-- `MapOutcome` (`map_outcome`). -/
def Rec.map_outcome {σ In T Out : Type} (R : Rec σ In T) (f : T → Out) :
    Rec σ In Out where
  init := R.init
  update := fun frame s =>
    let p := R.update frame s
    (p.1, p.2.map f)

/-- `FilterOutcome` (`filter_outcome`). -/
def Rec.filter_outcome {σ In Out : Type} (R : Rec σ In Out) (f : Out → Bool) :
    Rec σ In Out where
  init := R.init
  update := fun frame s =>
    let p := R.update frame s
    (p.1, p.2.andThen fun x => if f x then .Succeeded x else .Failed)

/-- `SplitInput` (`split_input`): state is the inner state plus the `cached`
option.  The source's `self.cached.take().unwrap()` panics when `cached` is
`None` (ruled out by the recognizer contract); the unwrap of `none` is
modelled by `Inhabited.default`. -/
def Rec.split_input {σ In2 Out A B : Type} [Inhabited B] (R : Rec σ In2 Out)
    (f : A → B × In2) : Rec (σ × Option B) A (B × Out) where
  init := fun a frame s =>
    (R.init (f a).2 frame s.1, some (f a).1)
  update := fun frame s =>
    let p := R.update frame s.1
    match p.2 with
    | .Succeeded x => ((p.1, none), .Succeeded (s.2.getD default, x))
    | .Continuing => ((p.1, s.2), .Continuing)
    | .Failed => ((p.1, s.2), .Failed)

/-- `Composition` (`and_then`): state `(rec1, rec2, on_rec2)`.  `init` resets
`rec1` and the flag but leaves `rec2`'s state untouched; `rec2` is
initialized when `rec1` succeeds. -/
def Rec.comp {σ1 σ2 In T Out : Type} (R1 : Rec σ1 In T) (R2 : Rec σ2 T Out) :
    Rec (σ1 × σ2 × Bool) In Out where
  init := fun i frame s => (R1.init i frame s.1, s.2.1, false)
  update := fun frame s =>
    if s.2.2 = true then
      let p := R2.update frame s.2.1
      ((s.1, p.1, true), p.2)
    else
      let p := R1.update frame s.1
      match p.2 with
      | .Failed => ((p.1, s.2.1, false), .Failed)
      | .Continuing => ((p.1, s.2.1, false), .Continuing)
      | .Succeeded x => ((p.1, R2.init x frame s.2.1, true), .Continuing)

/-- `Constraint` (`constrain`): the filter runs first; if it fails the whole
composite fails and the wrapped recognizer is not updated that tick. -/
def Rec.constrain {σ σf In Out : Type} (R : Rec σ In Out) (F : FilterB σf) :
    Rec (σ × σf) In Out where
  init := fun i frame s => (R.init i frame s.1, F.init frame s.2)
  update := fun frame s =>
    let pf := F.update frame s.2
    if pf.2 = FilterResult.Failed then ((s.1, pf.1), .Failed)
    else
      let p := R.update frame s.1
      ((p.1, pf.1), p.2)

/-! ### Claim C4: `InitialAngle` -/

/-- C4, counterexample: the movement threshold of `InitialAngle::new()` is
5.0 mm, not 1.0 mm. -/
theorem C4_initial_angle_counterexample : InitialAngle.new.threshold ≠ 1 := by
  unfold InitialAngle.new
  norm_num

/-- C4 (amended): `InitialAngle::new()` has movement threshold 5.0 mm (not
1.0); `init` caches `start := cur.mean_pos()` (and leaves the threshold
alone); `update` fails whenever a finger went up or down this tick, and
otherwise, with `diff := cur.mean_pos() - start`, succeeds with payload
`(start, Angle(atan2(-diff.y, diff.x)))` exactly when `|diff| > threshold`,
else continues. -/
theorem C4_initial_angle_spec :
    InitialAngle.new.threshold = 5 ∧
    (∀ (s : InitialAngle) (f : Frame),
      (InitialAngleRec.init () f s).init_pos = f.cur.mean_pos ∧
      (InitialAngleRec.init () f s).threshold = s.threshold) ∧
    (∀ (s : InitialAngle) (f : Frame),
      (f.touch_up = true ∨ f.touch_down = true →
        InitialAngleRec.update f s = (s, .Failed)) ∧
      (f.touch_up = false → f.touch_down = false →
        (s.threshold
            < PointOps.length (PointOps.sub f.cur.mean_pos s.init_pos) →
          InitialAngleRec.update f s
            = (s, .Succeeded (s.init_pos,
                Angle.from_radians
                  (atan2 (-(PointOps.sub f.cur.mean_pos s.init_pos).2)
                    (PointOps.sub f.cur.mean_pos s.init_pos).1)))) ∧
        (¬ s.threshold
            < PointOps.length (PointOps.sub f.cur.mean_pos s.init_pos) →
          InitialAngleRec.update f s = (s, .Continuing)))) := by
  refine ⟨rfl, fun s f => ⟨rfl, rfl⟩, fun s f => ⟨?_, ?_⟩⟩
  · intro h
    unfold InitialAngleRec
    dsimp only
    rw [if_pos h]
  · intro hu hd
    constructor
    · intro hlen
      unfold InitialAngleRec
      dsimp only
      rw [if_neg (by simp [hu, hd]), if_pos hlen]
    · intro hlen
      unfold InitialAngleRec
      dsimp only
      rw [if_neg (by simp [hu, hd]), if_neg hlen]

/-- A frame with one finger down in slot 0 at `(6, 0)`. -/
def c4frame : Frame :=
  { touch_down := false, touch_up := false,
    cur := ⟨1, fun i => decide (i.val = 0), fun _ => (6, 0)⟩,
    last := Snapshot.new }

/-- Witness for `C4_initial_angle_spec`: from a cached start at the origin, a
frame whose mean position is `(6, 0)` (6 mm > 5 mm threshold) makes
`InitialAngle` succeed. -/
theorem C4_initial_angle_spec_witness :
    InitialAngleRec.update c4frame ⟨5, (0, 0)⟩
      = (⟨5, (0, 0)⟩, .Succeeded ((0, 0),
          Angle.from_radians
            (atan2 (-(PointOps.sub c4frame.cur.mean_pos (0, 0)).2)
              (PointOps.sub c4frame.cur.mean_pos (0, 0)).1))) := by
  have hm : c4frame.cur.mean_pos = (6, 0) := by
    unfold Snapshot.mean_pos
    rw [if_neg (by decide : ¬(c4frame.cur.num_down = 0))]
    rw [show Snapshot.downSet c4frame.cur = {0} from by decide,
      Finset.sum_singleton]
    show PointOps.sdiv (6, 0) ((1 : ℕ) : ℝ) = (6, 0)
    simp [PointOps.sdiv]
  have hlen : (5 : ℝ)
      < PointOps.length (PointOps.sub c4frame.cur.mean_pos (0, 0)) := by
    rw [hm]
    show (5 : ℝ) < PointOps.length ((6 : ℝ) - 0, (0 : ℝ) - 0)
    unfold PointOps.length
    rw [show ((6 : ℝ) - 0) ^ 2 + ((0 : ℝ) - 0) ^ 2 = 6 ^ 2 by norm_num,
      Real.sqrt_sq (by norm_num)]
    norm_num
  exact ((C4_initial_angle_spec.2.2 ⟨5, (0, 0)⟩ c4frame).2 rfl rfl).1 hlen

/-! ### Claim C9: replayability

A recognizer is *replayable* when, after `init(i, f0)`, the verdicts it
produces on any subsequent frame sequence do not depend on earlier
activations (`init`/`update` calls) of the same instance. -/

/-- The verdict trace of a recognizer over a list of frames. -/
def trace {σ In Out : Type} (R : Rec σ In Out) :
    List Frame → σ → List (RecResult Out)
  | [], _ => []
  | f :: fs, s => (R.update f s).2 :: trace R fs (R.update f s).1

/-- Verdict-trace equivalence of two states. -/
def TraceEquiv {σ In Out : Type} (R : Rec σ In Out) (s₁ s₂ : σ) : Prop :=
  ∀ fs : List Frame, trace R fs s₁ = trace R fs s₂

/-- One operation of an activation history. -/
inductive HistOp (In : Type) where
  | hinit (i : In) (f : Frame)
  | hupdate (f : Frame)

/-- Running an activation history over a recognizer state. -/
def runHist {σ In Out : Type} (R : Rec σ In Out) :
    List (HistOp In) → σ → σ
  | [], s => s
  | .hinit i f :: ops, s => runHist R ops (R.init i f s)
  | .hupdate f :: ops, s => runHist R ops (R.update f s).1

/-- Replayability (claim C9's property for recognizers). -/
def Replayable {σ In Out : Type} (R : Rec σ In Out) : Prop :=
  ∀ (ops : List (HistOp In)) (s : σ) (i : In) (f0 : Frame),
    TraceEquiv R (R.init i f0 (runHist R ops s)) (R.init i f0 s)

/-- The result trace of a filter over a list of frames. -/
def ftrace {σ : Type} (F : FilterB σ) : List Frame → σ → List FilterResult
  | [], _ => []
  | f :: fs, s => (F.update f s).2 :: ftrace F fs (F.update f s).1

/-- Result-trace equivalence of two filter states. -/
def FTraceEquiv {σ : Type} (F : FilterB σ) (s₁ s₂ : σ) : Prop :=
  ∀ fs : List Frame, ftrace F fs s₁ = ftrace F fs s₂

/-- One operation of a filter activation history. -/
inductive FHistOp where
  | finit (f : Frame)
  | fupdate (f : Frame)

/-- Running a filter activation history. -/
def runFHist {σ : Type} (F : FilterB σ) : List FHistOp → σ → σ
  | [], s => s
  | .finit f :: ops, s => runFHist F ops (F.init f s)
  | .fupdate f :: ops, s => runFHist F ops (F.update f s).1

/-- Replayability for filters. -/
def FReplayable {σ : Type} (F : FilterB σ) : Prop :=
  ∀ (ops : List FHistOp) (s : σ) (f0 : Frame),
    FTraceEquiv F (F.init f0 (runFHist F ops s)) (F.init f0 s)

/-- Trace equivalence gives equal verdicts and trace-equivalent successor
states after one update. -/
theorem trace_equiv_step {σ In Out : Type} {R : Rec σ In Out} {s₁ s₂ : σ}
    (h : TraceEquiv R s₁ s₂) (f : Frame) :
    (R.update f s₁).2 = (R.update f s₂).2 ∧
      TraceEquiv R (R.update f s₁).1 (R.update f s₂).1 := by
  constructor
  · have h1 := h [f]
    unfold trace at h1
    exact (List.cons.injEq _ _ _ _).mp h1 |>.1
  · intro fs
    have h1 := h (f :: fs)
    unfold trace at h1
    exact (List.cons.injEq _ _ _ _).mp h1 |>.2

/-- Same for filters. -/
theorem ftrace_equiv_step {σ : Type} {F : FilterB σ} {s₁ s₂ : σ}
    (h : FTraceEquiv F s₁ s₂) (f : Frame) :
    (F.update f s₁).2 = (F.update f s₂).2 ∧
      FTraceEquiv F (F.update f s₁).1 (F.update f s₂).1 := by
  constructor
  · have h1 := h [f]
    unfold ftrace at h1
    exact (List.cons.injEq _ _ _ _).mp h1 |>.1
  · intro fs
    have h1 := h (f :: fs)
    unfold ftrace at h1
    exact (List.cons.injEq _ _ _ _).mp h1 |>.2

/-- `NFingers`'s state (just the configured `n`) is never mutated. -/
theorem nfingers_runHist (ops : List (HistOp Unit)) (s : NFingers) :
    runHist NFingersRec ops s = s := by
  induction ops generalizing s with
  | nil => rfl
  | cons op ops ih => cases op <;> exact ih s

theorem replayable_NFingers : Replayable NFingersRec := by
  intro ops s i f0
  rw [nfingers_runHist]
  intro fs
  rfl

/-- `FingersUp`'s (empty) state is never mutated. -/
theorem fingers_up_runHist (ops : List (HistOp Unit)) (s : Unit) :
    runHist FingersUpRec ops s = s := by
  induction ops generalizing s with
  | nil => rfl
  | cons op ops ih => cases op <;> exact ih _

theorem replayable_FingersUp : Replayable FingersUpRec := by
  intro ops s i f0
  rw [fingers_up_runHist]
  intro fs
  rfl

/-- `InitialAngle`'s threshold is configuration: no history changes it. -/
theorem initial_angle_runHist_threshold (ops : List (HistOp Unit))
    (s : InitialAngle) :
    (runHist InitialAngleRec ops s).threshold = s.threshold := by
  induction ops generalizing s with
  | nil => rfl
  | cons op ops ih => cases op <;> exact ih _

theorem replayable_InitialAngle : Replayable InitialAngleRec := by
  intro ops s i f0
  have h : InitialAngleRec.init i f0 (runHist InitialAngleRec ops s)
      = InitialAngleRec.init i f0 s := by
    show (⟨(runHist InitialAngleRec ops s).threshold, f0.cur.mean_pos⟩ : InitialAngle)
        = ⟨s.threshold, f0.cur.mean_pos⟩
    rw [initial_angle_runHist_threshold]
  rw [h]
  intro fs
  rfl

/-- `StraightSwipe`'s four parameters are configuration: no history changes
them. -/
theorem straight_swipe_update_config (f : Frame) (s : StraightSwipe) :
    ((StraightSwipeRec.update f s).1).min_length = s.min_length ∧
    ((StraightSwipeRec.update f s).1).step = s.step ∧
    ((StraightSwipeRec.update f s).1).adaptivity = s.adaptivity ∧
    ((StraightSwipeRec.update f s).1).angle_tolerance = s.angle_tolerance := by
  unfold StraightSwipeRec
  dsimp only
  split_ifs <;> exact ⟨rfl, rfl, rfl, rfl⟩

theorem straight_swipe_runHist_config (ops : List (HistOp (Point × Angle)))
    (s : StraightSwipe) :
    (runHist StraightSwipeRec ops s).min_length = s.min_length ∧
    (runHist StraightSwipeRec ops s).step = s.step ∧
    (runHist StraightSwipeRec ops s).adaptivity = s.adaptivity ∧
    (runHist StraightSwipeRec ops s).angle_tolerance = s.angle_tolerance := by
  induction ops generalizing s with
  | nil => exact ⟨rfl, rfl, rfl, rfl⟩
  | cons op ops ih =>
      cases op with
      | hinit i f => exact ih _
      | hupdate f =>
          obtain ⟨h1, h2, h3, h4⟩ := ih ((StraightSwipeRec.update f s).1)
          obtain ⟨g1, g2, g3, g4⟩ := straight_swipe_update_config f s
          exact ⟨h1.trans g1, h2.trans g2, h3.trans g3, h4.trans g4⟩

theorem replayable_StraightSwipe : Replayable StraightSwipeRec := by
  intro ops s i f0
  have h : StraightSwipeRec.init i f0 (runHist StraightSwipeRec ops s)
      = StraightSwipeRec.init i f0 s := by
    obtain ⟨h1, h2, h3, h4⟩ := straight_swipe_runHist_config ops s
    show (⟨i.1, i.1, (runHist StraightSwipeRec ops s).min_length,
        (runHist StraightSwipeRec ops s).step,
        (runHist StraightSwipeRec ops s).adaptivity, i.2,
        (runHist StraightSwipeRec ops s).angle_tolerance⟩ : StraightSwipe)
      = ⟨i.1, i.1, s.min_length, s.step, s.adaptivity, i.2, s.angle_tolerance⟩
    rw [h1, h2, h3, h4]
  rw [h]
  intro fs
  rfl

/-- `NoMovement`'s threshold is configuration. -/
theorem no_movement_runFHist_threshold (ops : List FHistOp) (s : NoMovement) :
    (runFHist NoMovementFil ops s).threshold = s.threshold := by
  induction ops generalizing s with
  | nil => rfl
  | cons op ops ih =>
      cases op with
      | finit f => exact ih _
      | fupdate f =>
          refine (ih _).trans ?_
          unfold NoMovementFil
          dsimp only
          split_ifs <;> rfl

theorem freplayable_NoMovement : FReplayable NoMovementFil := by
  intro ops s f0
  have h : NoMovementFil.init f0 (runFHist NoMovementFil ops s)
      = NoMovementFil.init f0 s := by
    show (⟨(runFHist NoMovementFil ops s).threshold, f0.cur⟩ : NoMovement)
        = ⟨s.threshold, f0.cur⟩
    rw [no_movement_runFHist_threshold]
  rw [h]
  intro fs
  rfl

/-- `NoRelativeMovement`'s threshold and adaptivity are configuration. -/
theorem no_rel_runFHist_config (ops : List FHistOp) (s : NoRelativeMovement) :
    (runFHist NoRelativeMovementFil ops s).threshold = s.threshold ∧
    (runFHist NoRelativeMovementFil ops s).adaptivity = s.adaptivity := by
  induction ops generalizing s with
  | nil => exact ⟨rfl, rfl⟩
  | cons op ops ih =>
      cases op with
      | finit f => exact ih _
      | fupdate f =>
          obtain ⟨h1, h2⟩ := ih ((NoRelativeMovementFil.update f s).1)
          have g : ((NoRelativeMovementFil.update f s).1).threshold = s.threshold ∧
              ((NoRelativeMovementFil.update f s).1).adaptivity = s.adaptivity := by
            unfold NoRelativeMovementFil
            dsimp only
            split_ifs <;> exact ⟨rfl, rfl⟩
          exact ⟨h1.trans g.1, h2.trans g.2⟩

theorem freplayable_NoRelativeMovement : FReplayable NoRelativeMovementFil := by
  intro ops s f0
  have h : NoRelativeMovementFil.init f0 (runFHist NoRelativeMovementFil ops s)
      = NoRelativeMovementFil.init f0 s := by
    obtain ⟨h1, h2⟩ := no_rel_runFHist_config ops s
    show (⟨(runFHist NoRelativeMovementFil ops s).threshold,
        (runFHist NoRelativeMovementFil ops s).adaptivity,
        (f0.cur).sub_all f0.cur.mean_pos⟩ : NoRelativeMovement)
      = ⟨s.threshold, s.adaptivity, (f0.cur).sub_all f0.cur.mean_pos⟩
    rw [h1, h2]
  rw [h]
  intro fs
  rfl

/-! Wrapper combinators that share the inner state (`FlatMapOutcome`,
`MapOutcome`, `FilterOutcome`) preserve replayability. -/

theorem trace_flat_map {σ In T Out : Type} (R : Rec σ In T)
    (g : T → RecResult Out) :
    ∀ (fs : List Frame) (s : σ),
      trace (R.flat_map_outcome g) fs s
        = (trace R fs s).map (fun v => v.andThen g) := by
  intro fs
  induction fs with
  | nil => intro s; rfl
  | cons fr fs ih =>
      intro s
      show (R.update fr s).2.andThen g
          :: trace (R.flat_map_outcome g) fs (R.update fr s).1
        = (R.update fr s).2.andThen g
          :: ((trace R fs (R.update fr s).1).map fun v => v.andThen g)
      rw [ih]

theorem runHist_flat_map {σ In T Out : Type} (R : Rec σ In T)
    (g : T → RecResult Out) :
    ∀ (ops : List (HistOp In)) (s : σ),
      runHist (R.flat_map_outcome g) ops s = runHist R ops s := by
  intro ops
  induction ops with
  | nil => intro s; rfl
  | cons op ops ih => intro s; cases op <;> exact ih _

theorem replayable_flat_map {σ In T Out : Type} (R : Rec σ In T)
    (g : T → RecResult Out) (hR : Replayable R) :
    Replayable (R.flat_map_outcome g) := by
  intro ops s i f0 fs
  rw [trace_flat_map, trace_flat_map, runHist_flat_map]
  exact congrArg _ (hR ops s i f0 fs)

theorem trace_map_outcome {σ In T Out : Type} (R : Rec σ In T) (g : T → Out) :
    ∀ (fs : List Frame) (s : σ),
      trace (R.map_outcome g) fs s = (trace R fs s).map (fun v => v.map g) := by
  intro fs
  induction fs with
  | nil => intro s; rfl
  | cons fr fs ih =>
      intro s
      show (R.update fr s).2.map g :: trace (R.map_outcome g) fs (R.update fr s).1
        = (R.update fr s).2.map g
          :: ((trace R fs (R.update fr s).1).map fun v => v.map g)
      rw [ih]

theorem runHist_map_outcome {σ In T Out : Type} (R : Rec σ In T) (g : T → Out) :
    ∀ (ops : List (HistOp In)) (s : σ),
      runHist (R.map_outcome g) ops s = runHist R ops s := by
  intro ops
  induction ops with
  | nil => intro s; rfl
  | cons op ops ih => intro s; cases op <;> exact ih _

theorem replayable_map_outcome {σ In T Out : Type} (R : Rec σ In T)
    (g : T → Out) (hR : Replayable R) : Replayable (R.map_outcome g) := by
  intro ops s i f0 fs
  rw [trace_map_outcome, trace_map_outcome, runHist_map_outcome]
  exact congrArg _ (hR ops s i f0 fs)

theorem trace_filter_outcome {σ In Out : Type} (R : Rec σ In Out)
    (g : Out → Bool) :
    ∀ (fs : List Frame) (s : σ),
      trace (R.filter_outcome g) fs s
        = (trace R fs s).map
            (fun v => v.andThen fun x => if g x then .Succeeded x else .Failed) := by
  intro fs
  induction fs with
  | nil => intro s; rfl
  | cons fr fs ih =>
      intro s
      show ((R.update fr s).2.andThen fun x => if g x then .Succeeded x else .Failed)
          :: trace (R.filter_outcome g) fs (R.update fr s).1
        = ((R.update fr s).2.andThen fun x => if g x then .Succeeded x else .Failed)
          :: ((trace R fs (R.update fr s).1).map fun v =>
              v.andThen fun x => if g x then .Succeeded x else .Failed)
      rw [ih]

theorem runHist_filter_outcome {σ In Out : Type} (R : Rec σ In Out)
    (g : Out → Bool) :
    ∀ (ops : List (HistOp In)) (s : σ),
      runHist (R.filter_outcome g) ops s = runHist R ops s := by
  intro ops
  induction ops with
  | nil => intro s; rfl
  | cons op ops ih => intro s; cases op <;> exact ih _

theorem replayable_filter_outcome {σ In Out : Type} (R : Rec σ In Out)
    (g : Out → Bool) (hR : Replayable R) : Replayable (R.filter_outcome g) := by
  intro ops s i f0 fs
  rw [trace_filter_outcome, trace_filter_outcome, runHist_filter_outcome]
  exact congrArg _ (hR ops s i f0 fs)

/-! `SplitInput` preserves replayability. -/

theorem split_update_cont {σ In2 Out A B : Type} [Inhabited B]
    (R : Rec σ In2 Out) (f : A → B × In2) (fr : Frame) (s : σ × Option B)
    (hv : (R.update fr s.1).2 = .Continuing) :
    (R.split_input f).update fr s = (((R.update fr s.1).1, s.2), .Continuing) := by
  unfold Rec.split_input
  dsimp only
  rw [hv]

theorem split_update_failed {σ In2 Out A B : Type} [Inhabited B]
    (R : Rec σ In2 Out) (f : A → B × In2) (fr : Frame) (s : σ × Option B)
    (hv : (R.update fr s.1).2 = .Failed) :
    (R.split_input f).update fr s = (((R.update fr s.1).1, s.2), .Failed) := by
  unfold Rec.split_input
  dsimp only
  rw [hv]

theorem split_update_succ {σ In2 Out A B : Type} [Inhabited B]
    (R : Rec σ In2 Out) (f : A → B × In2) (fr : Frame) (s : σ × Option B)
    (x : Out) (hv : (R.update fr s.1).2 = .Succeeded x) :
    (R.split_input f).update fr s
      = (((R.update fr s.1).1, none), .Succeeded (s.2.getD default, x)) := by
  unfold Rec.split_input
  dsimp only
  rw [hv]

theorem split_runHist {σ In2 Out A B : Type} [Inhabited B] (R : Rec σ In2 Out)
    (f : A → B × In2) :
    ∀ (ops : List (HistOp A)) (s : σ × Option B),
      ∃ h : List (HistOp In2),
        (runHist (R.split_input f) ops s).1 = runHist R h s.1 := by
  intro ops
  induction ops with
  | nil => intro s; exact ⟨[], rfl⟩
  | cons op ops ih =>
      intro s
      cases op with
      | hinit a f0 =>
          obtain ⟨h, hh⟩ := ih ((R.split_input f).init a f0 s)
          exact ⟨.hinit (f a).2 f0 :: h, hh⟩
      | hupdate f0 =>
          obtain ⟨h, hh⟩ := ih ((R.split_input f).update f0 s).1
          refine ⟨.hupdate f0 :: h, ?_⟩
          have hst : (((R.split_input f).update f0 s).1).1 = (R.update f0 s.1).1 := by
            rcases hv : (R.update f0 s.1).2 with _ | x | _
            · rw [split_update_cont R f f0 s hv]
            · rw [split_update_succ R f f0 s x hv]
            · rw [split_update_failed R f f0 s hv]
          show (runHist (R.split_input f) ops ((R.split_input f).update f0 s).1).1
            = runHist R (.hupdate f0 :: h) s.1
          rw [hh, hst]
          rfl

theorem split_trace_eq {σ In2 Out A B : Type} [Inhabited B] (R : Rec σ In2 Out)
    (f : A → B × In2) :
    ∀ (fs : List Frame) (s₁ s₂ : σ) (c : Option B), TraceEquiv R s₁ s₂ →
      trace (R.split_input f) fs (s₁, c) = trace (R.split_input f) fs (s₂, c) := by
  intro fs
  induction fs with
  | nil => intro s₁ s₂ c _; rfl
  | cons fr fs ih =>
      intro s₁ s₂ c hR
      obtain ⟨hv, hs⟩ := trace_equiv_step hR fr
      show ((R.split_input f).update fr (s₁, c)).2
          :: trace (R.split_input f) fs ((R.split_input f).update fr (s₁, c)).1
        = ((R.split_input f).update fr (s₂, c)).2
          :: trace (R.split_input f) fs ((R.split_input f).update fr (s₂, c)).1
      rcases hv2 : (R.update fr s₂).2 with _ | x | _
      · have hv1 : (R.update fr (s₁, c).1).2 = .Continuing := hv.trans hv2
        rw [split_update_cont R f fr (s₁, c) hv1, split_update_cont R f fr (s₂, c) hv2]
        exact congrArg _ (ih _ _ _ hs)
      · have hv1 : (R.update fr (s₁, c).1).2 = .Succeeded x := hv.trans hv2
        rw [split_update_succ R f fr (s₁, c) x hv1,
          split_update_succ R f fr (s₂, c) x hv2]
        exact congrArg _ (ih _ _ _ hs)
      · have hv1 : (R.update fr (s₁, c).1).2 = .Failed := hv.trans hv2
        rw [split_update_failed R f fr (s₁, c) hv1,
          split_update_failed R f fr (s₂, c) hv2]
        exact congrArg _ (ih _ _ _ hs)

theorem replayable_split_input {σ In2 Out A B : Type} [Inhabited B]
    (R : Rec σ In2 Out) (f : A → B × In2) (hR : Replayable R) :
    Replayable (R.split_input f) := by
  intro ops s i f0 fs
  obtain ⟨h, hh⟩ := split_runHist R f ops s
  show trace (R.split_input f) fs
      (R.init (f i).2 f0 (runHist (R.split_input f) ops s).1, some (f i).1)
    = trace (R.split_input f) fs (R.init (f i).2 f0 s.1, some (f i).1)
  rw [hh]
  exact split_trace_eq R f fs _ _ _ (hR h s.1 (f i).2 f0)

/-! `Composition` preserves replayability.  Its `init` leaves `rec2`'s state
untouched, but `rec2` is always freshly initialized (in the same tick that
`rec1` succeeds) before it is ever updated, so the composite's verdicts after
`init` do not depend on the residual `rec2` state. -/

theorem comp_update_true {σ1 σ2 In T Out : Type} (R1 : Rec σ1 In T)
    (R2 : Rec σ2 T Out) (fr : Frame) (s : σ1 × σ2 × Bool) (hb : s.2.2 = true) :
    (R1.comp R2).update fr s
      = ((s.1, (R2.update fr s.2.1).1, true), (R2.update fr s.2.1).2) := by
  unfold Rec.comp
  dsimp only
  rw [if_pos hb]

theorem comp_update_false_cont {σ1 σ2 In T Out : Type} (R1 : Rec σ1 In T)
    (R2 : Rec σ2 T Out) (fr : Frame) (s : σ1 × σ2 × Bool) (hb : s.2.2 = false)
    (hv : (R1.update fr s.1).2 = .Continuing) :
    (R1.comp R2).update fr s
      = (((R1.update fr s.1).1, s.2.1, false), .Continuing) := by
  unfold Rec.comp
  dsimp only
  rw [if_neg (by simp [hb]), hv]

theorem comp_update_false_failed {σ1 σ2 In T Out : Type} (R1 : Rec σ1 In T)
    (R2 : Rec σ2 T Out) (fr : Frame) (s : σ1 × σ2 × Bool) (hb : s.2.2 = false)
    (hv : (R1.update fr s.1).2 = .Failed) :
    (R1.comp R2).update fr s
      = (((R1.update fr s.1).1, s.2.1, false), .Failed) := by
  unfold Rec.comp
  dsimp only
  rw [if_neg (by simp [hb]), hv]

theorem comp_update_false_succ {σ1 σ2 In T Out : Type} (R1 : Rec σ1 In T)
    (R2 : Rec σ2 T Out) (fr : Frame) (s : σ1 × σ2 × Bool) (x : T)
    (hb : s.2.2 = false) (hv : (R1.update fr s.1).2 = .Succeeded x) :
    (R1.comp R2).update fr s
      = (((R1.update fr s.1).1, R2.init x fr s.2.1, true), .Continuing) := by
  unfold Rec.comp
  dsimp only
  rw [if_neg (by simp [hb]), hv]

theorem comp_runHist {σ1 σ2 In T Out : Type} (R1 : Rec σ1 In T)
    (R2 : Rec σ2 T Out) :
    ∀ (ops : List (HistOp In)) (s : σ1 × σ2 × Bool),
      (∃ h1, (runHist (R1.comp R2) ops s).1 = runHist R1 h1 s.1) ∧
      (∃ h2, (runHist (R1.comp R2) ops s).2.1 = runHist R2 h2 s.2.1) := by
  intro ops
  induction ops with
  | nil => intro s; exact ⟨⟨[], rfl⟩, ⟨[], rfl⟩⟩
  | cons op ops ih =>
      intro s
      cases op with
      | hinit i f0 =>
          obtain ⟨⟨h1, hh1⟩, ⟨h2, hh2⟩⟩ := ih ((R1.comp R2).init i f0 s)
          exact ⟨⟨.hinit i f0 :: h1, hh1⟩, ⟨h2, hh2⟩⟩
      | hupdate f0 =>
          obtain ⟨⟨h1, hh1⟩, ⟨h2, hh2⟩⟩ := ih ((R1.comp R2).update f0 s).1
          by_cases hb : s.2.2 = true
          · have hst := comp_update_true R1 R2 f0 s hb
            rw [hst] at hh1 hh2
            refine ⟨⟨h1, ?_⟩, ⟨.hupdate f0 :: h2, ?_⟩⟩
            · show (runHist (R1.comp R2) ops ((R1.comp R2).update f0 s).1).1
                = runHist R1 h1 s.1
              rw [hst]
              exact hh1
            · show (runHist (R1.comp R2) ops ((R1.comp R2).update f0 s).1).2.1
                = runHist R2 (.hupdate f0 :: h2) s.2.1
              rw [hst]
              exact hh2
          · rw [Bool.not_eq_true] at hb
            rcases hv : (R1.update f0 s.1).2 with _ | x | _
            · have hst := comp_update_false_cont R1 R2 f0 s hb hv
              rw [hst] at hh1 hh2
              refine ⟨⟨.hupdate f0 :: h1, ?_⟩, ⟨h2, ?_⟩⟩
              · show (runHist (R1.comp R2) ops ((R1.comp R2).update f0 s).1).1
                  = runHist R1 (.hupdate f0 :: h1) s.1
                rw [hst]
                exact hh1
              · show (runHist (R1.comp R2) ops ((R1.comp R2).update f0 s).1).2.1
                  = runHist R2 h2 s.2.1
                rw [hst]
                exact hh2
            · have hst := comp_update_false_succ R1 R2 f0 s x hb hv
              rw [hst] at hh1 hh2
              refine ⟨⟨.hupdate f0 :: h1, ?_⟩, ⟨.hinit x f0 :: h2, ?_⟩⟩
              · show (runHist (R1.comp R2) ops ((R1.comp R2).update f0 s).1).1
                  = runHist R1 (.hupdate f0 :: h1) s.1
                rw [hst]
                exact hh1
              · show (runHist (R1.comp R2) ops ((R1.comp R2).update f0 s).1).2.1
                  = runHist R2 (.hinit x f0 :: h2) s.2.1
                rw [hst]
                exact hh2
            · have hst := comp_update_false_failed R1 R2 f0 s hb hv
              rw [hst] at hh1 hh2
              refine ⟨⟨.hupdate f0 :: h1, ?_⟩, ⟨h2, ?_⟩⟩
              · show (runHist (R1.comp R2) ops ((R1.comp R2).update f0 s).1).1
                  = runHist R1 (.hupdate f0 :: h1) s.1
                rw [hst]
                exact hh1
              · show (runHist (R1.comp R2) ops ((R1.comp R2).update f0 s).1).2.1
                  = runHist R2 h2 s.2.1
                rw [hst]
                exact hh2

theorem comp_trace_eq {σ1 σ2 In T Out : Type} (R1 : Rec σ1 In T)
    (R2 : Rec σ2 T Out) (hR2 : Replayable R2) :
    ∀ (fs : List Frame) (s₁ s₂ : σ1 × σ2 × Bool),
      ((s₁.2.2 = false ∧ s₂.2.2 = false ∧ TraceEquiv R1 s₁.1 s₂.1 ∧
          ∃ h, s₁.2.1 = runHist R2 h s₂.2.1) ∨
        (s₁.2.2 = true ∧ s₂.2.2 = true ∧ TraceEquiv R2 s₁.2.1 s₂.2.1)) →
      trace (R1.comp R2) fs s₁ = trace (R1.comp R2) fs s₂ := by
  intro fs
  induction fs with
  | nil => intro s₁ s₂ _; rfl
  | cons fr fs ih =>
      rintro s₁ s₂ (⟨hb1, hb2, hTE, h, hrun⟩ | ⟨hb1, hb2, hTE⟩)
      · obtain ⟨hv, hs⟩ := trace_equiv_step hTE fr
        show ((R1.comp R2).update fr s₁).2
            :: trace (R1.comp R2) fs ((R1.comp R2).update fr s₁).1
          = ((R1.comp R2).update fr s₂).2
            :: trace (R1.comp R2) fs ((R1.comp R2).update fr s₂).1
        rcases hv2 : (R1.update fr s₂.1).2 with _ | x | _
        · have hv1 : (R1.update fr s₁.1).2 = .Continuing := hv.trans hv2
          rw [comp_update_false_cont R1 R2 fr s₁ hb1 hv1,
            comp_update_false_cont R1 R2 fr s₂ hb2 hv2]
          exact congrArg _ (ih _ _ (Or.inl ⟨rfl, rfl, hs, h, hrun⟩))
        · have hv1 : (R1.update fr s₁.1).2 = .Succeeded x := hv.trans hv2
          rw [comp_update_false_succ R1 R2 fr s₁ x hb1 hv1,
            comp_update_false_succ R1 R2 fr s₂ x hb2 hv2]
          have hTE2 : TraceEquiv R2 (R2.init x fr s₁.2.1) (R2.init x fr s₂.2.1) := by
            rw [hrun]
            exact hR2 h s₂.2.1 x fr
          exact congrArg _ (ih _ _ (Or.inr ⟨rfl, rfl, hTE2⟩))
        · have hv1 : (R1.update fr s₁.1).2 = .Failed := hv.trans hv2
          rw [comp_update_false_failed R1 R2 fr s₁ hb1 hv1,
            comp_update_false_failed R1 R2 fr s₂ hb2 hv2]
          exact congrArg _ (ih _ _ (Or.inl ⟨rfl, rfl, hs, h, hrun⟩))
      · obtain ⟨hv, hs⟩ := trace_equiv_step hTE fr
        show ((R1.comp R2).update fr s₁).2
            :: trace (R1.comp R2) fs ((R1.comp R2).update fr s₁).1
          = ((R1.comp R2).update fr s₂).2
            :: trace (R1.comp R2) fs ((R1.comp R2).update fr s₂).1
        rw [comp_update_true R1 R2 fr s₁ hb1, comp_update_true R1 R2 fr s₂ hb2]
        rw [hv]
        exact congrArg _ (ih _ _ (Or.inr ⟨rfl, rfl, hs⟩))

theorem replayable_comp {σ1 σ2 In T Out : Type} (R1 : Rec σ1 In T)
    (R2 : Rec σ2 T Out) (h1 : Replayable R1) (h2 : Replayable R2) :
    Replayable (R1.comp R2) := by
  intro ops s i f0 fs
  obtain ⟨⟨ha, hha⟩, ⟨hb, hhb⟩⟩ := comp_runHist R1 R2 ops s
  apply comp_trace_eq R1 R2 h2 fs
  left
  refine ⟨rfl, rfl, ?_, hb, ?_⟩
  · show TraceEquiv R1 (R1.init i f0 (runHist (R1.comp R2) ops s).1)
      (R1.init i f0 s.1)
    rw [hha]
    exact h1 ha s.1 i f0
  · show (runHist (R1.comp R2) ops s).2.1 = runHist R2 hb s.2.1
    exact hhb

/-! `Constraint` preserves replayability. -/

theorem constrain_update_failed {σ σf In Out : Type} (R : Rec σ In Out)
    (F : FilterB σf) (fr : Frame) (s : σ × σf)
    (hf : (F.update fr s.2).2 = .Failed) :
    (R.constrain F).update fr s = ((s.1, (F.update fr s.2).1), .Failed) := by
  unfold Rec.constrain
  dsimp only
  rw [if_pos hf]

theorem constrain_update_passed {σ σf In Out : Type} (R : Rec σ In Out)
    (F : FilterB σf) (fr : Frame) (s : σ × σf)
    (hf : ¬ (F.update fr s.2).2 = .Failed) :
    (R.constrain F).update fr s
      = (((R.update fr s.1).1, (F.update fr s.2).1), (R.update fr s.1).2) := by
  unfold Rec.constrain
  dsimp only
  rw [if_neg hf]

theorem constrain_runHist {σ σf In Out : Type} (R : Rec σ In Out)
    (F : FilterB σf) :
    ∀ (ops : List (HistOp In)) (s : σ × σf),
      (∃ h, (runHist (R.constrain F) ops s).1 = runHist R h s.1) ∧
      (∃ fh, (runHist (R.constrain F) ops s).2 = runFHist F fh s.2) := by
  intro ops
  induction ops with
  | nil => intro s; exact ⟨⟨[], rfl⟩, ⟨[], rfl⟩⟩
  | cons op ops ih =>
      intro s
      cases op with
      | hinit i f0 =>
          obtain ⟨⟨h, hh⟩, ⟨fh, hfh⟩⟩ := ih ((R.constrain F).init i f0 s)
          exact ⟨⟨.hinit i f0 :: h, hh⟩, ⟨.finit f0 :: fh, hfh⟩⟩
      | hupdate f0 =>
          obtain ⟨⟨h, hh⟩, ⟨fh, hfh⟩⟩ := ih ((R.constrain F).update f0 s).1
          by_cases hf : (F.update f0 s.2).2 = .Failed
          · have hst := constrain_update_failed R F f0 s hf
            rw [hst] at hh hfh
            refine ⟨⟨h, ?_⟩, ⟨.fupdate f0 :: fh, ?_⟩⟩
            · show (runHist (R.constrain F) ops ((R.constrain F).update f0 s).1).1
                = runHist R h s.1
              rw [hst]
              exact hh
            · show (runHist (R.constrain F) ops ((R.constrain F).update f0 s).1).2
                = runFHist F (.fupdate f0 :: fh) s.2
              rw [hst]
              exact hfh
          · have hst := constrain_update_passed R F f0 s hf
            rw [hst] at hh hfh
            refine ⟨⟨.hupdate f0 :: h, ?_⟩, ⟨.fupdate f0 :: fh, ?_⟩⟩
            · show (runHist (R.constrain F) ops ((R.constrain F).update f0 s).1).1
                = runHist R (.hupdate f0 :: h) s.1
              rw [hst]
              exact hh
            · show (runHist (R.constrain F) ops ((R.constrain F).update f0 s).1).2
                = runFHist F (.fupdate f0 :: fh) s.2
              rw [hst]
              exact hfh

theorem constrain_trace_eq {σ σf In Out : Type} (R : Rec σ In Out)
    (F : FilterB σf) :
    ∀ (fs : List Frame) (s₁ s₂ : σ × σf), TraceEquiv R s₁.1 s₂.1 →
      FTraceEquiv F s₁.2 s₂.2 →
      trace (R.constrain F) fs s₁ = trace (R.constrain F) fs s₂ := by
  intro fs
  induction fs with
  | nil => intro s₁ s₂ _ _; rfl
  | cons fr fs ih =>
      intro s₁ s₂ hTE hFE
      obtain ⟨hfv, hfs⟩ := ftrace_equiv_step hFE fr
      show ((R.constrain F).update fr s₁).2
          :: trace (R.constrain F) fs ((R.constrain F).update fr s₁).1
        = ((R.constrain F).update fr s₂).2
          :: trace (R.constrain F) fs ((R.constrain F).update fr s₂).1
      by_cases hf2 : (F.update fr s₂.2).2 = .Failed
      · have hf1 : (F.update fr s₁.2).2 = .Failed := hfv.trans hf2
        rw [constrain_update_failed R F fr s₁ hf1,
          constrain_update_failed R F fr s₂ hf2]
        exact congrArg _ (ih _ _ hTE hfs)
      · have hf1 : ¬ (F.update fr s₁.2).2 = .Failed := by
          rw [hfv]
          exact hf2
        obtain ⟨hv, hs⟩ := trace_equiv_step hTE fr
        rw [constrain_update_passed R F fr s₁ hf1,
          constrain_update_passed R F fr s₂ hf2]
        rw [hv]
        exact congrArg _ (ih _ _ hs hfs)

theorem replayable_constrain {σ σf In Out : Type} (R : Rec σ In Out)
    (F : FilterB σf) (hR : Replayable R) (hF : FReplayable F) :
    Replayable (R.constrain F) := by
  intro ops s i f0 fs
  obtain ⟨⟨h, hh⟩, ⟨fh, hfh⟩⟩ := constrain_runHist R F ops s
  show trace (R.constrain F) fs
      (R.init i f0 (runHist (R.constrain F) ops s).1,
        F.init f0 (runHist (R.constrain F) ops s).2)
    = trace (R.constrain F) fs (R.init i f0 s.1, F.init f0 s.2)
  rw [hh, hfh]
  exact constrain_trace_eq R F fs _ _ (hR h s.1 i f0) (hF fh s.2 f0)

/-- C9: every recognizer built from the library's primitives and combinators
is replayable: after `init(i, f0)`, the verdict sequence over any frame list
is independent of any earlier activations (`init`/`update` history) of the
same instance.  The four primitives and the two filters are replayable, and
each combinator (`FlatMapOutcome`, `MapOutcome`, `FilterOutcome`,
`SplitInput`, `Composition`, `Constraint`) preserves replayability, so every
recognizer tree built from them — in particular `direction_swipe`'s — is
replayable. -/
theorem C9_replayable :
    Replayable NFingersRec ∧ Replayable FingersUpRec ∧
    Replayable InitialAngleRec ∧ Replayable StraightSwipeRec ∧
    FReplayable NoMovementFil ∧ FReplayable NoRelativeMovementFil ∧
    (∀ (σ In T Out : Type) (R : Rec σ In T) (g : T → RecResult Out),
      Replayable R → Replayable (R.flat_map_outcome g)) ∧
    (∀ (σ In T Out : Type) (R : Rec σ In T) (g : T → Out),
      Replayable R → Replayable (R.map_outcome g)) ∧
    (∀ (σ In Out : Type) (R : Rec σ In Out) (g : Out → Bool),
      Replayable R → Replayable (R.filter_outcome g)) ∧
    (∀ (σ In2 Out A B : Type) (_inst : Inhabited B) (R : Rec σ In2 Out)
      (g : A → B × In2), Replayable R → Replayable (R.split_input g)) ∧
    (∀ (σ1 σ2 In T Out : Type) (R1 : Rec σ1 In T) (R2 : Rec σ2 T Out),
      Replayable R1 → Replayable R2 → Replayable (R1.comp R2)) ∧
    (∀ (σ σf In Out : Type) (R : Rec σ In Out) (F : FilterB σf),
      Replayable R → FReplayable F → Replayable (R.constrain F)) :=
  ⟨replayable_NFingers, replayable_FingersUp, replayable_InitialAngle,
    replayable_StraightSwipe, freplayable_NoMovement,
    freplayable_NoRelativeMovement,
    fun _ _ _ _ R g h => replayable_flat_map R g h,
    fun _ _ _ _ R g h => replayable_map_outcome R g h,
    fun _ _ _ R g h => replayable_filter_outcome R g h,
    fun _ _ _ _ _ hB R g h => @replayable_split_input _ _ _ _ _ hB R g h,
    fun _ _ _ _ _ R1 R2 h1 h2 => replayable_comp R1 R2 h1 h2,
    fun _ _ _ _ R F hR hF => replayable_constrain R F hR hF⟩

/-- Witness for `C9_replayable`: for the composite
`NFingers(3).and_then(FingersUp)`, a prior stray `update` leaves the
post-`init` verdict trace unchanged. -/
theorem C9_replayable_witness :
    trace (NFingersRec.comp FingersUpRec) [Frame.new]
        ((NFingersRec.comp FingersUpRec).init () Frame.new
          (runHist (NFingersRec.comp FingersUpRec) [.hupdate Frame.new]
            (⟨3⟩, (), false)))
      = trace (NFingersRec.comp FingersUpRec) [Frame.new]
        ((NFingersRec.comp FingersUpRec).init () Frame.new (⟨3⟩, (), false)) :=
  (C9_replayable.2.2.2.2.2.2.2.2.2.2.1 _ _ _ _ _ NFingersRec FingersUpRec
      C9_replayable.1 C9_replayable.2.1)
    [.hupdate Frame.new] (⟨3⟩, (), false) () Frame.new [Frame.new]

/-! ## Manager (`manager.rs`)

The manager owns `Box<Recognizer<In=(), Out=T>>` values; the model is
parametric over the erased recognizer type `R`, whose capability is passed as
the two functions `rinit` (for `r.init((), frame)`, returning the mutated
recognizer) and `rupdate` (for `r.update(frame)`, returning the mutated
recognizer and the verdict). -/

/-- `Manager<T>`. -/
structure Manager (R : Type) where
  active : List R
  inactive : List R
  buf : List R
  frame : Frame

/-- `Manager::push(r)`: inserts directly into `active`. -/
def Manager.push {R : Type} (m : Manager R) (r : R) : Manager R :=
  { m with active := m.active ++ [r] }

/-- The dispatch loop `for mut rec in self.active.drain(..)`, with the
accumulator `(buf, inactive, pending return)`. -/
def dispatch {R T : Type} (rupdate : R → Frame → R × RecResult T) (fr : Frame) :
    List R → List R × List R × Option T → List R × List R × Option T
  | [], acc => acc
  | r :: rest, acc =>
      match (rupdate r fr).2 with
      | .Continuing =>
          dispatch rupdate fr rest (acc.1 ++ [(rupdate r fr).1], acc.2.1, acc.2.2)
      | .Failed =>
          dispatch rupdate fr rest (acc.1, acc.2.1 ++ [(rupdate r fr).1], acc.2.2)
      | .Succeeded g =>
          dispatch rupdate fr rest (acc.1, acc.2.1 ++ [(rupdate r fr).1], some g)

/-- `Manager::update(ev)`.  `none` propagates a `Frame::update` panic. -/
def Manager.update {R T : Type} (rinit : R → Frame → R)
    (rupdate : R → Frame → R × RecResult T) (m : Manager R) (ev : TouchEvent) :
    Option (Manager R × Option T) :=
  match Frame.update m.frame ev with
  | none => none
  | some fr =>
      match ev with
      | .FrameEv =>
          -- Rearm: re-init and re-activate the inactive recognizers when a
          -- new gesture window opens.
          let p :=
            if fr.last.num_down = 0 ∧ 0 < fr.cur.num_down then
              (m.active ++ m.inactive.map (fun r => rinit r fr), ([] : List R))
            else (m.active, m.inactive)
          -- Dispatch, swap `buf`/`active`, advance the frame.
          let d := dispatch rupdate fr p.1 (m.buf, p.2, none)
          some ({ active := d.1, inactive := d.2.1, buf := [],
                  frame := fr.advance }, d.2.2)
      | _ => some ({ m with frame := fr }, none)

/-- The condition opening a new gesture window. -/
abbrev rearmCond (fr : Frame) : Prop :=
  fr.last.num_down = 0 ∧ 0 < fr.cur.num_down

/-- The recognizers (after their update) that continued this tick, in
dispatch order. -/
def contRecs {R T : Type} (rupdate : R → Frame → R × RecResult T) (fr : Frame)
    (l : List R) : List R :=
  l.filterMap fun r =>
    match (rupdate r fr).2 with
    | .Continuing => some (rupdate r fr).1
    | _ => none

/-- The recognizers (after their update) that succeeded or failed this tick,
in dispatch order. -/
def retiredRecs {R T : Type} (rupdate : R → Frame → R × RecResult T)
    (fr : Frame) (l : List R) : List R :=
  l.filterMap fun r =>
    match (rupdate r fr).2 with
    | .Continuing => none
    | _ => some (rupdate r fr).1

/-- The pending return folded over the verdicts: the last success wins. -/
def lastSucc {T : Type} (r0 : Option T) (vs : List (RecResult T)) : Option T :=
  vs.foldl
    (fun acc v =>
      match v with
      | .Succeeded g => some g
      | _ => acc) r0

theorem dispatch_spec {R T : Type} (rupdate : R → Frame → R × RecResult T)
    (fr : Frame) :
    ∀ (l : List R) (buf inact : List R) (ret : Option T),
      dispatch rupdate fr l (buf, inact, ret)
        = (buf ++ contRecs rupdate fr l, inact ++ retiredRecs rupdate fr l,
            lastSucc ret (l.map fun r => (rupdate r fr).2)) := by
  intro l
  induction l with
  | nil =>
      intro buf inact ret
      simp [dispatch, contRecs, retiredRecs, lastSucc]
  | cons r rest ih =>
      intro buf inact ret
      rcases hv : (rupdate r fr).2 with _ | g | _ <;>
        · simp only [dispatch]
          rw [hv]
          dsimp only
          rw [ih]
          simp [contRecs, retiredRecs, lastSucc, List.filterMap_cons, hv]

/-- A non-frame event (that does not panic) only updates the frame: the
recognizer collections are untouched and no gesture is returned. -/
theorem manager_nonframe {R T : Type} (rinit : R → Frame → R)
    (rupdate : R → Frame → R × RecResult T) (m : Manager R) :
    ∀ (ev : TouchEvent), ev ≠ .FrameEv → ∀ fr,
      Frame.update m.frame ev = some fr →
      Manager.update rinit rupdate m ev = some ({ m with frame := fr }, none) := by
  intro ev hne fr hfu
  cases ev with
  | FrameEv => exact absurd rfl hne
  | Down slot x y =>
      unfold Manager.update
      rw [hfu]
  | Up slot =>
      unfold Manager.update
      rw [hfu]
  | Motion slot x y =>
      unfold Manager.update
      rw [hfu]
  | Cancel =>
      unfold Manager.update
      rw [hfu]

/-- A frame boundary that opens a gesture window: the inactive recognizers
are re-initialized with the current frame and dispatched after the active
ones. -/
theorem manager_frameEv_rearm {R T : Type} (rinit : R → Frame → R)
    (rupdate : R → Frame → R × RecResult T) (m : Manager R)
    (hc : rearmCond m.frame) :
    Manager.update rinit rupdate m .FrameEv
      = some (⟨ m.buf ++ contRecs rupdate m.frame
            (m.active ++ m.inactive.map fun r => rinit r m.frame),
          retiredRecs rupdate m.frame
            (m.active ++ m.inactive.map fun r => rinit r m.frame),
          [], m.frame.advance ⟩,
        lastSucc none
          ((m.active ++ m.inactive.map fun r => rinit r m.frame).map
            fun r => (rupdate r m.frame).2)) := by
  unfold Manager.update
  rw [show Frame.update m.frame .FrameEv = some m.frame from rfl]
  dsimp only
  rw [if_pos hc, dispatch_spec]
  simp

/-- A frame boundary with no rearm: only the active recognizers are
dispatched; the inactive ones are carried over unchanged (they are neither
initialized nor updated) ahead of the newly retired ones. -/
theorem manager_frameEv_norearm {R T : Type} (rinit : R → Frame → R)
    (rupdate : R → Frame → R × RecResult T) (m : Manager R)
    (hc : ¬ rearmCond m.frame) :
    Manager.update rinit rupdate m .FrameEv
      = some (⟨ m.buf ++ contRecs rupdate m.frame m.active,
          m.inactive ++ retiredRecs rupdate m.frame m.active, [],
          m.frame.advance ⟩,
        lastSucc none (m.active.map fun r => (rupdate r m.frame).2)) := by
  unfold Manager.update
  rw [show Frame.update m.frame .FrameEv = some m.frame from rfl]
  dsimp only
  rw [if_neg hc, dispatch_spec]

/-- The last success wins. -/
theorem lastSucc_append_succ {T : Type} (vs : List (RecResult T)) (g : T) :
    lastSucc none (vs ++ [.Succeeded g]) = some g := by
  unfold lastSucc
  rw [List.foldl_append]
  rfl

/-- Non-success verdicts leave the pending return alone. -/
theorem lastSucc_append_skip {T : Type} (vs : List (RecResult T))
    (v : RecResult T) (hv : ∀ g : T, v ≠ .Succeeded g) (r0 : Option T) :
    lastSucc r0 (vs ++ [v]) = lastSucc r0 vs := by
  unfold lastSucc
  rw [List.foldl_append]
  cases v with
  | Continuing => rfl
  | Failed => rfl
  | Succeeded g => exact absurd rfl (hv g)

/-- C1: `Manager::update(ev)` returns no gesture (and leaves the recognizer
collections untouched) for any non-frame event; at a frame boundary it
returns the last `Succeeded` payload in dispatch order (at most one gesture),
moves every recognizer that succeeded or failed into `inactive` after the
continuing ones are kept active, leaves `inactive` recognizers untouched
(neither initialized nor updated) while no gesture window opens, and when
`last.num_down == 0 ∧ cur.num_down > 0` re-initializes every inactive
recognizer with the current frame and dispatches it after the active ones. -/
theorem C1_manager_spec :
    ∀ (R T : Type) (rinit : R → Frame → R)
      (rupdate : R → Frame → R × RecResult T) (m : Manager R),
    (∀ (ev : TouchEvent), ev ≠ .FrameEv → ∀ fr,
      Frame.update m.frame ev = some fr →
      Manager.update rinit rupdate m ev = some ({ m with frame := fr }, none)) ∧
    (rearmCond m.frame →
      Manager.update rinit rupdate m .FrameEv
        = some (⟨ m.buf ++ contRecs rupdate m.frame
              (m.active ++ m.inactive.map fun r => rinit r m.frame),
            retiredRecs rupdate m.frame
              (m.active ++ m.inactive.map fun r => rinit r m.frame),
            [], m.frame.advance ⟩,
          lastSucc none
            ((m.active ++ m.inactive.map fun r => rinit r m.frame).map
              fun r => (rupdate r m.frame).2))) ∧
    (¬ rearmCond m.frame →
      Manager.update rinit rupdate m .FrameEv
        = some (⟨ m.buf ++ contRecs rupdate m.frame m.active,
            m.inactive ++ retiredRecs rupdate m.frame m.active, [],
            m.frame.advance ⟩,
          lastSucc none (m.active.map fun r => (rupdate r m.frame).2))) ∧
    (∀ (vs : List (RecResult T)) (g : T),
      lastSucc none (vs ++ [.Succeeded g]) = some g) ∧
    (∀ (vs : List (RecResult T)) (v : RecResult T), (∀ g : T, v ≠ .Succeeded g) →
      lastSucc none (vs ++ [v]) = lastSucc none vs) :=
  fun _R _T rinit rupdate m =>
    ⟨manager_nonframe rinit rupdate m,
      manager_frameEv_rearm rinit rupdate m,
      manager_frameEv_norearm rinit rupdate m,
      fun vs g => lastSucc_append_succ vs g,
      fun vs v hv => lastSucc_append_skip vs v hv none⟩

/-- Manager instances over a trivial recognizer type, for the witnesses. -/
def boolRInit : Bool → Frame → Bool := fun r _ => r

/-- A trivial `rupdate` that always continues. -/
def boolRUpdate : Bool → Frame → Bool × RecResult ℕ := fun r _ => (r, .Continuing)

/-- A concrete manager state. -/
def mgrEx : Manager Bool := ⟨[true], [false], [], Frame.new⟩

/-- Witness for `C1_manager_spec`: a `Cancel` event returns no gesture and a
fresh-frame boundary (no rearm) dispatches only the active recognizer. -/
theorem C1_manager_spec_witness :
    Manager.update boolRInit boolRUpdate mgrEx .Cancel
        = some ({ mgrEx with frame := mgrEx.frame }, none) ∧
    Manager.update boolRInit boolRUpdate mgrEx .FrameEv
      = some (⟨ mgrEx.buf ++ contRecs boolRUpdate mgrEx.frame mgrEx.active,
          mgrEx.inactive ++ retiredRecs boolRUpdate mgrEx.frame mgrEx.active,
          [], mgrEx.frame.advance ⟩,
        lastSucc none (mgrEx.active.map fun r => (boolRUpdate r mgrEx.frame).2)) :=
  ⟨(C1_manager_spec Bool ℕ boolRInit boolRUpdate mgrEx).1 .Cancel
      (fun h => TouchEvent.noConfusion h) mgrEx.frame rfl,
    (C1_manager_spec Bool ℕ boolRInit boolRUpdate mgrEx).2.2.1 (by decide)⟩

/-- C10: `Manager::push` inserts the recognizer directly into `active`
(nothing else changes); at the very next frame boundary the pushed
recognizer is dispatched with `update` applied to its raw pushed state —
`init` is never applied to it, even when the rearm fires (`init` is applied
only to members of `inactive`); and if its verdict is terminal it is moved
into `inactive`, whence a later rearm (see the rearm clause of the manager
contract) re-initializes it into `active`. -/
theorem C10_push_spec :
    ∀ (R T : Type) (rinit : R → Frame → R)
      (rupdate : R → Frame → R × RecResult T) (m : Manager R) (r : R),
    ((m.push r).active = m.active ++ [r] ∧ (m.push r).inactive = m.inactive ∧
      (m.push r).buf = m.buf ∧ (m.push r).frame = m.frame) ∧
    (rearmCond m.frame →
      Manager.update rinit rupdate (m.push r) .FrameEv
        = some (⟨ m.buf ++ contRecs rupdate m.frame
              ((m.active ++ [r]) ++ m.inactive.map fun x => rinit x m.frame),
            retiredRecs rupdate m.frame
              ((m.active ++ [r]) ++ m.inactive.map fun x => rinit x m.frame),
            [], m.frame.advance ⟩,
          lastSucc none
            (((m.active ++ [r]) ++ m.inactive.map fun x => rinit x m.frame).map
              fun x => (rupdate x m.frame).2))) ∧
    (¬ rearmCond m.frame →
      Manager.update rinit rupdate (m.push r) .FrameEv
        = some (⟨ m.buf ++ contRecs rupdate m.frame (m.active ++ [r]),
            m.inactive ++ retiredRecs rupdate m.frame (m.active ++ [r]), [],
            m.frame.advance ⟩,
          lastSucc none
            ((m.active ++ [r]).map fun x => (rupdate x m.frame).2))) ∧
    (∀ (fr : Frame) (g : T),
      ((rupdate r fr).2 = .Failed ∨ (rupdate r fr).2 = .Succeeded g) →
      retiredRecs rupdate fr (m.active ++ [r])
        = retiredRecs rupdate fr m.active ++ [(rupdate r fr).1]) := by
  intro _R _T rinit rupdate m r
  refine ⟨⟨rfl, rfl, rfl, rfl⟩, ?_, ?_, ?_⟩
  · intro hc
    exact manager_frameEv_rearm rinit rupdate (m.push r) hc
  · intro hc
    exact manager_frameEv_norearm rinit rupdate (m.push r) hc
  · intro fr g hv
    unfold retiredRecs
    rw [List.filterMap_append]
    rcases hv with hv | hv <;> simp [hv]

/-- A concrete manager state for the C10 witness. -/
def mgrC10 : Manager Bool := ⟨[], [], [], Frame.new⟩

/-- Witness for `C10_push_spec`: a freshly pushed recognizer is dispatched at
the next frame boundary with no `init` applied. -/
theorem C10_push_spec_witness :
    Manager.update boolRInit boolRUpdate (mgrC10.push true) .FrameEv
      = some (⟨ mgrC10.buf ++ contRecs boolRUpdate mgrC10.frame
            (mgrC10.active ++ [true]),
          mgrC10.inactive ++ retiredRecs boolRUpdate mgrC10.frame
            (mgrC10.active ++ [true]),
          [], mgrC10.frame.advance ⟩,
        lastSucc none
          ((mgrC10.active ++ [true]).map fun x => (boolRUpdate x mgrC10.frame).2)) :=
  (C10_push_spec Bool ℕ boolRInit boolRUpdate mgrC10 true).2.2.1 (by decide)

end Gesture
